import Mathlib

/-!
Shallow embedding of `app.py` (a Streamlit analytics dashboard: a five-scenario
synthetic dataset generator followed by a fixed table pipeline of cleaning,
normalization, feature engineering, identifier extraction and a hypothesis
test), together with proofs checking the natural-language specification
against it.

Modelling conventions:
* a pandas DataFrame is a `Table`: a list of `(column name, dtype)` pairs and a
  list of rows, each row a list of cells; a cell is `Option Val`, `none`
  standing for a missing value (NaN/NaT);
* machine numbers are `ℚ` (the program only adds, subtracts, multiplies,
  divides and rounds, far from any float-precision-sensitive branch);
* the NumPy global pseudorandom stream (`np.random`) is modelled by an
  explicit state `Rng` (seed and position) and a fixed mixing function
  `prng`; `np.random.seed(42)` is `seedRng 42`.  The claims settled here
  depend only on the stream being a deterministic function of seed and
  position, which is exactly what the Mersenne Twister provides;
* vectorized pandas/NumPy operations become `List.map` / `List.zipWith`
  over columns in the order the source draws them.
-/

/-- A cell value: numeric, string, boolean, or a datetime measured in days
since 2024-01-01 (the generator's base date, a Monday). -/
inductive Val where
  | num (q : ℚ)
  | str (s : String)
  | boolv (b : Bool)
  | date (d : Int)
deriving DecidableEq, Repr

/-- A cell: `none` is a missing value (NaN / NaT / None). -/
abbrev Cell := Option Val

/-- Pandas column dtypes as they matter to the pipeline: `select_dtypes`
distinguishes numeric, object (strings), boolean and datetime columns. -/
inductive DType where
  | numeric
  | object
  | boolean
  | datetime
deriving DecidableEq, Repr

/-- A DataFrame: named, typed columns and row-major data. -/
structure Table where
  cols : List (String × DType)
  rows : List (List Cell)
deriving DecidableEq, Repr

/-- The column names (`df.columns`). -/
def Table.names (t : Table) : List String := t.cols.map Prod.fst

/-- Well-formedness: every row has one cell per column. -/
def Table.Wf (t : Table) : Prop := ∀ r ∈ t.rows, r.length = t.cols.length

/-- Boolean form of well-formedness, for concrete witnesses. -/
def wfB (t : Table) : Bool := t.rows.all (fun r => r.length == t.cols.length)

/-- Cell at row `i`, column `j`. -/
def cellAt (t : Table) (i j : Nat) : Cell := (t.rows.getD i []).getD j none

/-- First index satisfying a predicate (Python's `next((x for x in ...), None)`
over an indexed sequence). -/
def findIdxP (p : α → Bool) : List α → Option Nat
  | [] => none
  | a :: as => if p a then some 0 else (findIdxP p as).map (fun k => k + 1)

/-- Index of the first column with the given name (pandas label lookup). -/
def colIdx (t : Table) (name : String) : Option Nat :=
  findIdxP (fun c => c.1 == name) t.cols

/-- The cells of column `j`, one per row. -/
def colCells (t : Table) (j : Nat) : List Cell := t.rows.map (fun r => r.getD j none)

/-- `df[name] = cells`: overwrite the column if the label exists, else append
it on the right, as pandas column assignment does. -/
def setCol (t : Table) (name : String) (dt : DType) (cells : List Cell) : Table :=
  match colIdx t name with
  | some j =>
      { cols := t.cols.set j (name, dt),
        rows := (t.rows.zip cells).map (fun p => p.1.set j p.2) }
  | none =>
      { cols := t.cols ++ [(name, dt)],
        rows := (t.rows.zip cells).map (fun p => p.1 ++ [p.2]) }

/-- Does `small` occur at the head of `big`? -/
def leadsWith : List Char → List Char → Bool
  | [], _ => true
  | _ :: _, [] => false
  | a :: as, b :: bs => a == b && leadsWith as bs

/-- Does `needle` occur as a contiguous run inside the list? -/
def hasSubList (needle : List Char) : List Char → Bool
  | [] => leadsWith needle []
  | c :: rest => leadsWith needle (c :: rest) || hasSubList needle rest

/-- Python's `needle in hay` on strings: contiguous substring test. -/
def strContains (hay needle : String) : Bool := hasSubList needle.data hay.data

/-- Python's `str.lower()`. -/
def lowerStr (s : String) : String := String.mk (s.data.map Char.toLower)

/-- Model of the NumPy global Mersenne Twister: the `c`-th draw of the stream
seeded with `s` is a fixed mixing function of `s` and `c`.  The proofs rely
only on the stream being a deterministic function of seed and position. -/
def prng (s c : Nat) : Nat := (s * 1103515245 + c * 12345 + 12345) % 2147483648

/-- The global RNG state: seed and position in the stream. -/
structure Rng where
  seed : Nat
  ctr : Nat
deriving DecidableEq, Repr

/-- `np.random.seed s`: a fresh stream at position 0. -/
def seedRng (s : Nat) : Rng := ⟨s, 0⟩

/-- Draw `n` raw values from the stream, advancing it. -/
def drawNats (g : Rng) (n : Nat) : List Nat × Rng :=
  ((List.range n).map (fun k => prng g.seed (g.ctr + k)), ⟨g.seed, g.ctr + n⟩)

/-- `np.random.randint lo hi` from one raw draw: a value in `[lo, hi)`. -/
def nrandint (lo hi x : Nat) : Nat := lo + x % (hi - lo)

/-- `np.random.choice opts` (uniform) from one raw draw. -/
def nchoice (opts : List α) (dflt : α) (x : Nat) : α := opts.getD (x % opts.length) dflt

/-- Walk a percent-weighted option list with a residue `r`. -/
def pickFrom (dflt : α) : Nat → List (α × Nat) → α
  | _, [] => dflt
  | r, (a, w) :: rest => if r < w then a else pickFrom dflt (r - w) rest

/-- Total weight of a percent-weighted option list. -/
def totalW (l : List (α × Nat)) : Nat := (l.map Prod.snd).foldl (fun a b => a + b) 0

/-- `np.random.choice opts p=[...]`: weighted choice from one raw draw,
weights in percent. -/
def nchoiceW (opts : List (α × Nat)) (dflt : α) (x : Nat) : α :=
  pickFrom dflt (x % totalW opts) opts

/-- `np.random.uniform a b` from one raw draw (a rational grid point of
`[a, b)`; the claims never depend on the float grid itself). -/
def nuniform (a b : ℚ) (x : Nat) : ℚ :=
  a + (b - a) * ((x % 1000000 : Nat) : ℚ) / 1000000

/-- `np.round(x, 2)` (the tie-to-even difference is immaterial here). -/
def round2 (q : ℚ) : ℚ := ((Rat.floor (q * 100 + 1 / 2) : ℚ)) / 100

/-- `np.round(x, 1)`. -/
def round1 (q : ℚ) : ℚ := ((Rat.floor (q * 10 + 1 / 2) : ℚ)) / 10

/-- Python's `f"{m:02d}"`. -/
def pad2 (m : Nat) : String :=
  if m < 100 then String.mk [Nat.digitChar (m / 10 % 10), Nat.digitChar (m % 10)]
  else toString m

/-- Python's `f"{m:04d}"`. -/
def pad4 (m : Nat) : String :=
  if m < 10000 then
    String.mk [Nat.digitChar (m / 1000 % 10), Nat.digitChar (m / 100 % 10),
               Nat.digitChar (m / 10 % 10), Nat.digitChar (m % 10)]
  else toString m

/-- The identifier column `[f"PFX-{i:04d}" for i in range(1, n+1)]`. -/
def mkIds (pfx : String) (n : Nat) : List String :=
  (List.range n).map (fun i => pfx ++ "-" ++ pad4 (i + 1))

/-- `pd.date_range('2024-01-01', periods=n) + to_timedelta(randint(0,365,n), 'D')`:
day `i` of the range plus a random offset, in days since 2024-01-01. -/
def mkDates (g : Rng) (n : Nat) : List Int × Rng :=
  let p := drawNats g n
  (p.1.enum.map (fun q => (q.1 : Int) + (nrandint 0 365 q.2 : Int)), p.2)

/-- Day of week, Monday = 0 (2024-01-01 is a Monday). -/
def weekdayOf (d : Int) : Nat := ((d % 7 + 7) % 7).toNat

/-- Day names as pandas `dt.day_name()` renders them. -/
def dayNames : List String :=
  ["Monday", "Tuesday", "Wednesday", "Thursday", "Friday", "Saturday", "Sunday"]

/-- `dt.day_name()` for one date. -/
def dayNameOf (d : Int) : String := dayNames.getD (weekdayOf d) ""

/-- Assemble a table from column-major data (the `pd.DataFrame({...})` call). -/
def mkTable (cols : List (String × DType)) (data : List (List Cell)) (n : Nat) : Table :=
  { cols := cols,
    rows := (List.range n).map (fun i => data.map (fun col => col.getD i none)) }

/-- A numeric column from integers. -/
def natsC (l : List Nat) : List Cell := l.map (fun x => some (Val.num (x : ℚ)))

/-- A numeric column from rationals. -/
def ratsC (l : List ℚ) : List Cell := l.map (fun q => some (Val.num q))

/-- A string column. -/
def strsC (l : List String) : List Cell := l.map (fun s => some (Val.str s))

/-- A datetime column. -/
def datesC (l : List Int) : List Cell := l.map (fun d => some (Val.date d))

/-- A boolean column. -/
def boolsC (l : List Bool) : List Cell := l.map (fun b => some (Val.boolv b))

/-- Elementwise sum of two integer columns. -/
def zipAdd (a b : List Nat) : List Nat := List.zipWith (fun x y => x + y) a b

/-- Scenario branch 1 of `generate_sample_data` (Instagram User Engagement):
draws post types, dates, times, interaction counts, reach, a rounded
engagement rate and follower growth, in source order. -/
def genInstagram (g : Rng) : Table × Rng :=
  let n := 1000
  let ids := mkIds "POST" n
  let p1 := drawNats g n
  let ptypes := p1.1.map (nchoiceW
    [("Photo", 30), ("Video", 20), ("Reel", 30), ("Story", 10), ("Carousel", 10)] "Photo")
  let p2 := mkDates p1.2 n
  let dts := p2.1
  let p3 := drawNats p2.2 n
  let hrs := p3.1.map (nrandint 0 24)
  let p4 := drawNats p3.2 n
  let mns := p4.1.map (nrandint 0 60)
  let times := List.zipWith (fun h m => pad2 h ++ ":" ++ pad2 m) hrs mns
  let p5 := drawNats p4.2 n
  let likes := p5.1.map (nrandint 50 5000)
  let p6 := drawNats p5.2 n
  let comments := p6.1.map (nrandint 5 500)
  let p7 := drawNats p6.2 n
  let shares := p7.1.map (nrandint 1 1000)
  let p8 := drawNats p7.2 n
  let extra := p8.1.map (nrandint 100 10000)
  let reach := zipAdd (zipAdd likes comments) (zipAdd shares extra)
  let lcs := zipAdd (zipAdd likes comments) shares
  let er := List.zipWith (fun s r => round2 ((s : ℚ) / (r : ℚ) * 100)) lcs reach
  let p9 := drawNats p8.2 n
  let fg := p9.1.map (nchoiceW
    [((-10 : ℚ), 5), (0, 20), (5, 30), (10, 20), (20, 15), (50, 10)] 0)
  (mkTable
    [("post_id", DType.object), ("post_type", DType.object), ("post_date", DType.datetime),
     ("post_time", DType.object), ("likes", DType.numeric), ("comments", DType.numeric),
     ("shares", DType.numeric), ("reach", DType.numeric), ("engagement_rate", DType.numeric),
     ("followers_growth", DType.numeric)]
    [strsC ids, strsC ptypes, datesC dts, strsC times, natsC likes, natsC comments,
     natsC shares, natsC reach, ratsC er, ratsC fg] n, p9.2)

/-- Scenario branch 2 (McDonald's Store Sales). -/
def genMcdonalds (g : Rng) : Table × Rng :=
  let n := 1000
  let ids := mkIds "ORDER" n
  let p1 := drawNats g n
  let zones := p1.1.map (nchoice ["North", "South", "East", "West", "Central"] "")
  let p2 := mkDates p1.2 n
  let dts := p2.1
  let p3 := drawNats p2.2 n
  let hrs := p3.1.map (nrandint 0 24)
  let p4 := drawNats p3.2 n
  let mns := p4.1.map (nrandint 0 60)
  let times := List.zipWith (fun h m => pad2 h ++ ":" ++ pad2 m) hrs mns
  let p5 := drawNats p4.2 n
  let menu := p5.1.map (nchoice ["Burger", "Fries", "Beverage", "Combo", "Dessert", "Salad"] "")
  let p6 := drawNats p5.2 n
  let items := p6.1.map (nrandint 1 6)
  let p7 := drawNats p6.2 n
  let ovals := p7.1.map (fun x => round2 (nuniform 100 1000 x))
  let iswk := dts.map (fun d => decide (5 ≤ weekdayOf d))
  let p8 := drawNats p7.2 n
  let rep := p8.1.map (nchoiceW [((0 : ℚ), 60), (1, 40)] 0)
  (mkTable
    [("order_id", DType.object), ("store_zone", DType.object), ("order_date", DType.datetime),
     ("order_time", DType.object), ("menu_item", DType.object),
     ("items_per_order", DType.numeric), ("order_value", DType.numeric),
     ("is_weekend", DType.boolean), ("repeat_customer", DType.numeric)]
    [strsC ids, strsC zones, datesC dts, strsC times, strsC menu, natsC items,
     ratsC ovals, boolsC iswk, ratsC rep] n, p8.2)

/-- Scenario branch 3 (Netflix Content Performance).  `drop_off_episode` mixes
integers with the string `'None'`, hence an object column of mixed cells. -/
def genNetflix (g : Rng) : Table × Rng :=
  let n := 1000
  let ids := mkIds "CONTENT" n
  let p1 := drawNats g n
  let genres := p1.1.map
    (nchoice ["Drama", "Comedy", "Thriller", "Documentary", "Action", "Sci-Fi"] "")
  let p2 := mkDates p1.2 n
  let dts := p2.1
  let p3 := drawNats p2.2 n
  let watch := p3.1.map (nrandint 10 120)
  let p4 := drawNats p3.2 n
  let compl := p4.1.map (fun x => round2 (nuniform (1 / 10) 1 x))
  let p5 := drawNats p4.2 n
  let dropoff := p5.1.map (nchoice
    [Val.num 1, Val.num 2, Val.num 3, Val.num 4, Val.num 5, Val.str "None"] (Val.str ""))
  let p6 := drawNats p5.2 n
  let rating := p6.1.map (fun x => round1 (nuniform 1 5 x))
  let p7 := drawNats p6.2 n
  let orig := p7.1.map (nchoiceW [((0 : ℚ), 40), (1, 60)] 0)
  (mkTable
    [("content_id", DType.object), ("genre", DType.object), ("view_date", DType.datetime),
     ("watch_time_min", DType.numeric), ("completion_rate", DType.numeric),
     ("drop_off_episode", DType.object), ("user_rating", DType.numeric),
     ("is_original", DType.numeric)]
    [strsC ids, strsC genres, datesC dts, natsC watch, ratsC compl,
     dropoff.map some, ratsC rating, ratsC orig] n, p7.2)

/-- Scenario branch 4 (Amazon Order Fulfillment). -/
def genAmazon (g : Rng) : Table × Rng :=
  let n := 1000
  let ids := mkIds "AMZ-ORDER" n
  let p1 := drawNats g n
  let cats := p1.1.map (nchoice ["Electronics", "Clothing", "Books", "Home", "Beauty"] "")
  let p2 := mkDates p1.2 n
  let dts := p2.1
  let p3 := drawNats p2.2 n
  let deliv := p3.1.map (nrandint 1 7)
  let p4 := drawNats p3.2 n
  let ontime := p4.1.map (nchoiceW [((0 : ℚ), 20), (1, 80)] 0)
  let p5 := drawNats p4.2 n
  let ret := p5.1.map (nchoiceW [((0 : ℚ), 85), (1, 15)] 0)
  let p6 := drawNats p5.2 n
  let rating := p6.1.map (fun x => round1 (nuniform 1 5 x))
  let p7 := drawNats p6.2 n
  let cost := p7.1.map (fun x => round2 (nuniform 50 500 x))
  let p8 := drawNats p7.2 n
  let zone := p8.1.map (nchoice ["Urban", "Rural", "Suburban"] "")
  (mkTable
    [("order_id", DType.object), ("category", DType.object), ("order_date", DType.datetime),
     ("delivery_days", DType.numeric), ("on_time", DType.numeric),
     ("returned", DType.numeric), ("customer_rating", DType.numeric),
     ("fulfillment_cost", DType.numeric), ("zone", DType.object)]
    [strsC ids, strsC cats, datesC dts, natsC deliv, ratsC ontime, ratsC ret,
     ratsC rating, ratsC cost, strsC zone] n, p8.2)

/-- Scenario branch 5 (Spotify User Listening Patterns). -/
def genSpotify (g : Rng) : Table × Rng :=
  let n := 1000
  let ids := mkIds "USER" n
  let p1 := drawNats g n
  let genres := p1.1.map
    (nchoice ["Pop", "Hip-Hop", "Rock", "Classical", "Jazz", "Electronic"] "")
  let p2 := mkDates p1.2 n
  let dts := p2.1
  let p3 := drawNats p2.2 n
  let listen := p3.1.map (nrandint 5 60)
  let p4 := drawNats p3.2 n
  let skips := p4.1.map (nrandint 0 10)
  let p5 := drawNats p4.2 n
  let subs := p5.1.map (nchoiceW [("Free", 60), ("Premium", 40)] "")
  let p6 := drawNats p5.2 n
  let device := p6.1.map (nchoice ["Mobile", "Desktop", "Tablet"] "")
  let p7 := drawNats p6.2 n
  let churn := p7.1.map (nchoiceW [((0 : ℚ), 85), (1, 15)] 0)
  (mkTable
    [("user_id", DType.object), ("genre", DType.object), ("listen_date", DType.datetime),
     ("listen_time_min", DType.numeric), ("skips", DType.numeric),
     ("subscription", DType.object), ("device", DType.object), ("churn", DType.numeric)]
    [strsC ids, strsC genres, datesC dts, natsC listen, natsC skips,
     strsC subs, strsC device, ratsC churn] n, p7.2)

/-- How `generate_sample_data` can fail.  `invalidScenario` is the named error
the specification's contract demands for an unknown scenario; `nameError`
models what the Python function actually does there: every `if`/`elif` branch
misses, so `return df` raises `UnboundLocalError` (`df` was never assigned). -/
inductive GenError where
  | invalidScenario
  | nameError
deriving DecidableEq, Repr

/-- The five scenario identifiers, exactly as the selectbox lists them. -/
def scn1 : String := "1. Instagram User Engagement"

def scn2 : String := "2. McDonald\x27s Store Sales"

def scn3 : String := "3. Netflix Content Performance"

def scn4 : String := "4. Amazon Order Fulfillment"

def scn5 : String := "5. Spotify User Listening Patterns"

def scenarioIds : List String := [scn1, scn2, scn3, scn4, scn5]

/-- `generate_sample_data(topic)`: seeds the global stream with 42, then
dispatches on the scenario string; an unknown string falls through every
branch and the trailing `return df` raises (modelled as `nameError`).
The incoming stream state `g` is discarded by the re-seed, which is what
makes sequential calls independent. -/
def generate_sample_data (g : Rng) (topic : String) : Except GenError Table × Rng :=
  let g0 := seedRng 42
  if topic = scn1 then ((genInstagram g0).1 |> Except.ok, (genInstagram g0).2)
  else if topic = scn2 then ((genMcdonalds g0).1 |> Except.ok, (genMcdonalds g0).2)
  else if topic = scn3 then ((genNetflix g0).1 |> Except.ok, (genNetflix g0).2)
  else if topic = scn4 then ((genAmazon g0).1 |> Except.ok, (genAmazon g0).2)
  else if topic = scn5 then ((genSpotify g0).1 |> Except.ok, (genSpotify g0).2)
  else (Except.error GenError.nameError, g0)

/-- Insert into a sorted list of rationals. -/
def insertQ (x : ℚ) : List ℚ → List ℚ
  | [] => [x]
  | y :: ys => if x ≤ y then x :: y :: ys else y :: insertQ x ys

/-- Insertion sort of rationals (ascending). -/
def sortQ : List ℚ → List ℚ
  | [] => []
  | x :: xs => insertQ x (sortQ xs)

/-- Pandas `Series.median()` over the non-missing values: `none` on an empty
list (an all-NaN column has median NaN), else middle element or mean of the
two middle elements. -/
def medianQ (l : List ℚ) : Option ℚ :=
  let s := sortQ l
  if s.length = 0 then none
  else if s.length % 2 = 1 then some (s.getD (s.length / 2) 0)
  else some ((s.getD (s.length / 2 - 1) 0 + s.getD (s.length / 2) 0) / 2)

/-- Is every cell of the row missing?  (`dropna(how='all')`'s test.) -/
def rowEmpty (r : List Cell) : Bool := r.all (fun c => c.isNone)

/-- `df.dropna(how='all')`: drop rows whose every cell is missing. -/
def dropEmptyRows (rows : List (List Cell)) : List (List Cell) :=
  rows.filter (fun r => !rowEmpty r)

/-- The numeric content of a cell. -/
def cellNum : Cell → Option ℚ
  | some (Val.num q) => some q
  | _ => none

/-- The numeric values present in a column. -/
def numsOf (cells : List Cell) : List ℚ := cells.filterMap cellNum

/-- What `fillna` writes into the missing cells of one column: the median for
a numeric column (nothing when the median is itself NaN), the sentinel
`"Unknown"` for an object column, nothing for boolean/datetime columns
(neither `select_dtypes` set includes them). -/
def fillOf (dt : DType) (cells : List Cell) : Cell :=
  match dt with
  | DType.numeric => (medianQ (numsOf cells)).map Val.num
  | DType.object => some (Val.str "Unknown")
  | _ => none

/-- `fillna` on one cell: keep a present value, else the column's fill. -/
def fillCell (f : Cell) (c : Cell) : Cell :=
  match c with
  | some v => some v
  | none => f

/-- The per-column fills, computed over the post-drop rows. -/
def colsFills (cols : List (String × DType)) (rows : List (List Cell)) : List Cell :=
  (List.range cols.length).map
    (fun j => fillOf (cols.getD j ("", DType.object)).2 (rows.map (fun r => r.getD j none)))

/-- The cleaning stage (lines 117-121): drop all-missing rows, fill numeric
missing values with the column median, fill object missing values with
`"Unknown"`. -/
def clean (t : Table) : Table :=
  let rows1 := dropEmptyRows t.rows
  let fills := colsFills t.cols rows1
  { cols := t.cols, rows := rows1.map (fun r => List.zipWith fillCell fills r) }

/-- The names line 126 tests with exact membership in `df.columns`. -/
def exactDateNames : List String :=
  ["date", "post_date", "order_date", "view_date", "listen_date"]

/-- The guard of line 126: `'date' in df.columns or 'post_date' in df.columns
or ...` - exact name membership, not a substring scan. -/
def hasExactDateName (t : Table) : Bool :=
  exactDateNames.any (fun n => t.names.contains n)

/-- Line 127: first column whose lowercased name contains `"date"`. -/
def findDateIdx (t : Table) : Option Nat :=
  findIdxP (fun c => strContains (lowerStr c.1) "date") t.cols

/-- Decimal value of a digit run. -/
def digitsVal (cs : List Char) : Nat := cs.foldl (fun a c => a * 10 + (c.toNat - 48)) 0

/-- Split a character list on `'-'`. -/
def splitDashAux (acc : List Char) : List Char → List (List Char)
  | [] => [acc.reverse]
  | c :: rest => if c = '-' then acc.reverse :: splitDashAux [] rest
                 else splitDashAux (c :: acc) rest

def splitDash (s : String) : List (List Char) := splitDashAux [] s.data

/-- Days from civil date (proleptic Gregorian), days since 1970-01-01
(Howard Hinnant's algorithm, as calendar libraries implement it). -/
def daysFromCivil (y m d : Int) : Int :=
  let y2 := if m ≤ 2 then y - 1 else y
  let era := (if 0 ≤ y2 then y2 else y2 - 399) / 400
  let yoe := y2 - era * 400
  let mp := (m + 9) % 12
  let doy := (153 * mp + 2) / 5 + d - 1
  let doe := yoe * 365 + yoe / 4 - yoe / 100 + doy
  era * 146097 + doe - 719468

/-- Days since 2024-01-01 of a civil date (2024-01-01 is 19723 days past
1970-01-01). -/
def civilToDays (y m d : Int) : Int := daysFromCivil y m d - 19723

/-- Model of `pd.to_datetime(..., errors='coerce')` on one string, restricted
to ISO `YYYY-MM-DD` (the format every date this program renders uses):
anything else coerces to missing, exactly the spec's "unparseable values
become missing". -/
def parseDateStr (s : String) : Option Int :=
  match splitDash s with
  | [ys, ms, ds] =>
      if ys ≠ [] ∧ ms ≠ [] ∧ ds ≠ [] ∧ (ys ++ ms ++ ds).all Char.isDigit then
        let y := digitsVal ys
        let m := digitsVal ms
        let d := digitsVal ds
        if 1 ≤ m ∧ m ≤ 12 ∧ 1 ≤ d ∧ d ≤ 31 then
          some (civilToDays (y : Int) (m : Int) (d : Int))
        else none
      else none
  | _ => none

/-- `pd.to_datetime(..., errors='coerce')` on one cell: dates pass through,
strings parse or coerce to missing, anything else is missing. -/
def parseCell : Cell → Cell
  | some (Val.date d) => some (Val.date d)
  | some (Val.str s) => (parseDateStr s).map Val.date
  | _ => none

/-- `dt.day_name()` on one (already parsed) cell. -/
def dowCell : Cell → Cell
  | some (Val.date d) => some (Val.str (dayNameOf d))
  | _ => none

/-- `dt.weekday >= 5` on one parsed cell: NaT's weekday is NaN and
`NaN >= 5` is False, so the result is always a boolean. -/
def weekendCell (c : Cell) : Cell :=
  some (Val.boolv (match c with
    | some (Val.date d) => decide (5 ≤ weekdayOf d)
    | _ => false))

/-- The date-handling block (lines 126-130): if one of the five exact names
is a column, take the first column whose lowercased name contains `"date"`,
coerce it to datetime, and write `day_of_week` and `is_weekend`. -/
def normalizeDates (t : Table) : Table :=
  if hasExactDateName t then
    match findDateIdx t with
    | some j =>
        let nm := (t.cols.getD j ("", DType.object)).1
        let parsed := (colCells t j).map parseCell
        let t2 := setCol t nm DType.datetime parsed
        let t3 := setCol t2 "day_of_week" DType.object (parsed.map dowCell)
        setCol t3 "is_weekend" DType.boolean (parsed.map weekendCell)
    | none => t
  else t

/-- Maximum of a list of rationals (`Series.max()` over present values). -/
def qmax : List ℚ → Option ℚ
  | [] => none
  | x :: xs => match qmax xs with
    | none => some x
    | some y => some (max x y)

/-- Minimum of a list of rationals (`Series.min()` over present values). -/
def qmin : List ℚ → Option ℚ
  | [] => none
  | x :: xs => match qmin xs with
    | none => some x
    | some y => some (min x y)

/-- The numeric column labels (`select_dtypes(include=[np.number]).columns`,
computed once at cleaning time, line 118). -/
def numericNames (t : Table) : List String :=
  (t.cols.filter (fun c => c.2 == DType.numeric)).map Prod.fst

/-- One iteration of the min-max loop (lines 133-135): if the column's
max minus min is positive, append `<name>_normalized` with
`(v - min) / (max - min)` per present value. -/
def normOne (t : Table) (name : String) : Table :=
  match colIdx t name with
  | none => t
  | some j =>
      let cells := colCells t j
      let vals := numsOf cells
      match qmax vals, qmin vals with
      | some mx, some mn =>
          if 0 < mx - mn then
            setCol t (name ++ "_normalized") DType.numeric
              (cells.map (fun c => match cellNum c with
                | some v => some (Val.num ((v - mn) / (mx - mn)))
                | none => none))
          else t
      | _, _ => t

/-- The whole min-max loop, over the numeric labels captured at cleaning. -/
def normalizeNumeric (t : Table) (numCols : List String) : Table :=
  numCols.foldl normOne t

/-- Pandas `KeyError` from a missing mandatory column (feature engineering
reads columns by fixed names). -/
inductive ColErr where
  | keyError (name : String)
deriving DecidableEq, Repr

/-- The cells of a named column, if the label exists. -/
def getColByName (t : Table) (name : String) : Option (List Cell) :=
  (colIdx t name).map (fun j => colCells t j)

/-- Elementwise arithmetic on two columns; a missing operand gives a missing
result. -/
def binOpCells (f : ℚ → ℚ → Option ℚ) (a b : List Cell) : List Cell :=
  List.zipWith (fun x y => match cellNum x, cellNum y with
    | some p, some q => (f p q).map Val.num
    | _, _ => none) a b

def qAdd (p q : ℚ) : Option ℚ := some (p + q)

def qSub (p q : ℚ) : Option ℚ := some (p - q)

def qMul (p q : ℚ) : Option ℚ := some (p * q)

/-- Division; pandas turns x/0 into inf/NaN, modelled as missing (the
generated denominators are never zero). -/
def qDiv (p q : ℚ) : Option ℚ := if q = 0 then none else some (p / q)

/-- `np.where(completion_rate > 0.8, 'High', 'Low')` on one cell
(`NaN > 0.8` is False, hence `'Low'`). -/
def retentionCell (c : Cell) : Cell :=
  some (Val.str (match cellNum c with
    | some v => if (4 : ℚ) / 5 < v then "High" else "Low"
    | none => "Low"))

/-- The feature-engineering block (lines 142-151): per-scenario derived
column; reading a missing mandatory column raises `KeyError` (surfaced as
`ColErr.keyError`), and an unknown scenario string matches no branch and
changes nothing. -/
def addFeatures (topic : String) (t : Table) : Except ColErr Table :=
  if topic = scn1 then
    match getColByName t "likes" with
    | none => Except.error (ColErr.keyError "likes")
    | some likes =>
      match getColByName t "comments" with
      | none => Except.error (ColErr.keyError "comments")
      | some comments =>
        match getColByName t "shares" with
        | none => Except.error (ColErr.keyError "shares")
        | some shares =>
          match getColByName t "reach" with
          | none => Except.error (ColErr.keyError "reach")
          | some reach =>
            Except.ok (setCol t "engagement_rate" DType.numeric
              (binOpCells qDiv (binOpCells qAdd (binOpCells qAdd likes comments) shares) reach))
  else if topic = scn2 then
    match getColByName t "order_value" with
    | none => Except.error (ColErr.keyError "order_value")
    | some ov =>
      match getColByName t "items_per_order" with
      | none => Except.error (ColErr.keyError "items_per_order")
      | some items =>
        Except.ok (setCol t "avg_item_value" DType.numeric (binOpCells qDiv ov items))
  else if topic = scn3 then
    match getColByName t "completion_rate" with
    | none => Except.error (ColErr.keyError "completion_rate")
    | some cr =>
      Except.ok (setCol t "retention_category" DType.object (cr.map retentionCell))
  else if topic = scn4 then
    match getColByName t "on_time" with
    | none => Except.error (ColErr.keyError "on_time")
    | some ot =>
      match getColByName t "customer_rating" with
      | none => Except.error (ColErr.keyError "customer_rating")
      | some ra =>
        match getColByName t "returned" with
        | none => Except.error (ColErr.keyError "returned")
        | some re =>
          Except.ok (setCol t "satisfaction_score" DType.numeric
            (binOpCells qSub (binOpCells qMul ot ra) re))
  else if topic = scn5 then
    match getColByName t "skips" with
    | none => Except.error (ColErr.keyError "skips")
    | some sk =>
      match getColByName t "listen_time_min" with
      | none => Except.error (ColErr.keyError "listen_time_min")
      | some lt =>
        Except.ok (setCol t "skip_rate" DType.numeric (binOpCells qDiv sk lt))
  else Except.ok t

/-- The column name each scenario's feature-engineering branch assigns. -/
def featureTarget (topic : String) : String :=
  if topic = scn1 then "engagement_rate"
  else if topic = scn2 then "avg_item_value"
  else if topic = scn3 then "retention_category"
  else if topic = scn4 then "satisfaction_score"
  else if topic = scn5 then "skip_rate"
  else ""

/-- The declared column set of each scenario's generated table. -/
def scenarioColumns (topic : String) : List String :=
  if topic = scn1 then
    ["post_id", "post_type", "post_date", "post_time", "likes", "comments",
     "shares", "reach", "engagement_rate", "followers_growth"]
  else if topic = scn2 then
    ["order_id", "store_zone", "order_date", "order_time", "menu_item",
     "items_per_order", "order_value", "is_weekend", "repeat_customer"]
  else if topic = scn3 then
    ["content_id", "genre", "view_date", "watch_time_min", "completion_rate",
     "drop_off_episode", "user_rating", "is_original"]
  else if topic = scn4 then
    ["order_id", "category", "order_date", "delivery_days", "on_time",
     "returned", "customer_rating", "fulfillment_cost", "zone"]
  else if topic = scn5 then
    ["user_id", "genre", "listen_date", "listen_time_min", "skips",
     "subscription", "device", "churn"]
  else []

/-- The scenario-specific identifier column prefixes. -/
def scenarioPfx (topic : String) : String :=
  if topic = scn1 then "POST"
  else if topic = scn2 then "ORDER"
  else if topic = scn3 then "CONTENT"
  else if topic = scn4 then "AMZ-ORDER"
  else if topic = scn5 then "USER"
  else ""

/-- Line 157: first column whose lowercased name contains `"id"`.  (The
`if id_col:` truthiness test equals an is-not-None test here: a matching
name contains `"id"`, so it is never the empty string.) -/
def findIdIdx (t : Table) : Option Nat :=
  findIdxP (fun c => strContains (lowerStr c.1) "id") t.cols

/-- First maximal run of decimal digits of a character list (the regex
`(\d+)` with `Series.str.extract`). -/
def firstDigitRun : List Char → Option (List Char)
  | [] => none
  | c :: rest =>
      if c.isDigit then some (c :: rest.takeWhile Char.isDigit)
      else firstDigitRun rest

/-- `str.extract(r'(\d+)', expand=False)` on one string. -/
def extractNum (s : String) : Option String := (firstDigitRun s.data).map String.mk

/-- The extraction on one cell: non-string cells give NaN, as `.str` does. -/
def extractCell : Cell → Cell
  | some (Val.str s) => (extractNum s).map Val.str
  | _ => none

/-- The regex block (lines 157-161): if an id-like column exists, assign
`extracted_number`; else do nothing. -/
def extractIds (t : Table) : Table :=
  match findIdIdx t with
  | some j => setCol t "extracted_number" DType.object ((colCells t j).map extractCell)
  | none => t

/-- The hypothesis-testing block (lines 165-173): runs only when both
`is_weekend` and `order_value` are columns; splits `order_value` by the
boolean mask, hands the two samples to `scipy.stats.ttest_ind` with
`equal_var=False` (the trailing `Bool` records that flag), and leaves the
table untouched.  The float statistic itself stays inside scipy. -/
def hypothesisStage (t : Table) : Option (List Cell × List Cell × Bool) × Table :=
  match colIdx t "is_weekend", colIdx t "order_value" with
  | some jw, some jv =>
      (some ((t.rows.filter (fun r => r.getD jw none == some (Val.boolv true))).map
               (fun r => r.getD jv none),
             (t.rows.filter (fun r => !(r.getD jw none == some (Val.boolv true)))).map
               (fun r => r.getD jv none),
             false), t)
  | _, _ => (none, t)

/-- The whole pipeline as the script runs it on a table `df`: clean, capture
the numeric labels, date block, min-max loop, features, id extraction,
hypothesis test. -/
def runPipeline (topic : String) (t : Table) :
    Except ColErr (Table × Option (List Cell × List Cell × Bool)) :=
  let t1 := clean t
  let numCols := numericNames t1
  let t2 := normalizeDates t1
  let t3 := normalizeNumeric t2 numCols
  match addFeatures topic t3 with
  | Except.error e => Except.error e
  | Except.ok t4 =>
      let t5 := extractIds t4
      let p := hypothesisStage t5
      Except.ok (p.2, p.1)

/-- Unwrap a generator result (the dashboard only ever sees the `ok` side). -/
def getTable (p : Except GenError Table × Rng) : Table :=
  match p.1 with
  | Except.ok t => t
  | Except.error _ => ⟨[], []⟩

/-- The Instagram table as generated from an arbitrary incoming stream state
(the call re-seeds, so the incoming state is irrelevant). -/
def T1gen : Table := getTable (generate_sample_data (seedRng 0) scn1)

/-- The Instagram table after its feature-engineering branch. -/
def T1feat : Table :=
  match addFeatures scn1 T1gen with
  | Except.ok t => t
  | Except.error _ => ⟨[], []⟩

/-- A one-column table whose only column is named `Date` (capital D):
line 127 would find it, but the guard on line 126 never fires. -/
def tCap : Table := ⟨[("Date", DType.object)], [[some (Val.str "2024-01-06")]]⟩

/-- A small table with an `order_date` column: one parseable Saturday, one
unparseable string, one Monday. -/
def tOrder : Table :=
  ⟨[("order_date", DType.object)],
   [[some (Val.str "2024-01-06")], [some (Val.str "notadate")], [some (Val.str "2024-01-08")]]⟩

/-- A small dirty table: numeric column with a hole, object column with a
hole, and one fully missing row. -/
def tMiss : Table :=
  ⟨[("a", DType.numeric), ("b", DType.object)],
   [[some (Val.num 1), none], [none, some (Val.str "x")], [none, none],
    [some (Val.num 4), some (Val.str "y")], [some (Val.num 2), none]]⟩

/-- A two-row numeric table for the min-max boundary checks. -/
def tNorm : Table := ⟨[("x", DType.numeric)], [[some (Val.num 1)], [some (Val.num 3)]]⟩

/-- A table with an id-like column holding the spec's two regex examples. -/
def tIds : Table :=
  ⟨[("order_id", DType.object)],
   [[some (Val.str "ORDER-0427")], [some (Val.str "NOID")]]⟩

/-- A table carrying both columns the hypothesis-test block needs. -/
def tHyp : Table :=
  ⟨[("is_weekend", DType.boolean), ("order_value", DType.numeric)],
   [[some (Val.boolv true), some (Val.num 10)],
    [some (Val.boolv false), some (Val.num 5)],
    [some (Val.boolv true), some (Val.num 7)]]⟩

/-- A one-row table with the Instagram feature columns, `likes` missing and a
generated-style `engagement_rate` already present. -/
def tInsta : Table :=
  ⟨[("likes", DType.numeric), ("comments", DType.numeric), ("shares", DType.numeric),
    ("reach", DType.numeric), ("engagement_rate", DType.numeric)],
   [[none, some (Val.num 1), some (Val.num 1), some (Val.num 1), some (Val.num 9)]]⟩

/-- `tInsta` after the Instagram feature branch. -/
def tInstaFeat : Table :=
  match addFeatures scn1 tInsta with
  | Except.ok t => t
  | Except.error _ => ⟨[], []⟩

/- ───────────────────────── helper lemmas ───────────────────────── -/

theorem wfB_iff (t : Table) : t.Wf ↔ wfB t = true := by
  unfold Table.Wf wfB
  rw [List.all_eq_true]
  constructor
  · intro h r hr
    simpa using h r hr
  · intro h r hr
    simpa using h r hr

theorem getD_map_range (f : Nat → α) (n i : Nat) (d : α) (h : i < n) :
    ((List.range n).map f).getD i d = f i := by
  have hl : i < ((List.range n).map f).length := by simpa using h
  rw [List.getD_eq_getElem _ _ hl, List.getElem_map, List.getElem_range]

theorem getD_map_of_lt (g : α → β) (l : List α) (i : Nat) (d : β) (d' : α)
    (h : i < l.length) : (l.map g).getD i d = g (l.getD i d') := by
  have hl : i < (l.map g).length := by simpa using h
  rw [List.getD_eq_getElem _ _ hl, List.getElem_map, List.getD_eq_getElem _ _ h]

theorem mkTable_cellAt (cols : List (String × DType)) (data : List (List Cell))
    (n i j : Nat) (hi : i < n) :
    cellAt (mkTable cols data n) i j = (data.getD j []).getD i none := by
  unfold cellAt mkTable
  simp only []
  rw [getD_map_range _ _ _ _ hi]
  by_cases hj : j < data.length
  · rw [getD_map_of_lt _ _ _ _ [] hj]
  · have h1 : (data.map (fun col => col.getD i none)).getD j none = none :=
      List.getD_eq_default _ _ (by simpa using Nat.le_of_not_lt hj)
    have h2 : data.getD j [] = [] := List.getD_eq_default _ _ (Nat.le_of_not_lt hj)
    rw [h1, h2]
    rfl

theorem digitChar_facts (x : Nat) (h : x < 10) :
    (Nat.digitChar x).isDigit = true ∧ (Nat.digitChar x).toNat = 48 + x := by
  have hall : ∀ y : Fin 10, (Nat.digitChar y.val).isDigit = true ∧
      (Nat.digitChar y.val).toNat = 48 + y.val := by decide
  exact hall ⟨x, h⟩

theorem pad4_spec (m : Nat) (h1 : 1 ≤ m) (h2 : m ≤ 9999) :
    (pad4 m).data.length = 4 ∧ (pad4 m).data.all Char.isDigit = true ∧
      digitsVal (pad4 m).data = m := by
  have hlt : m < 10000 := by omega
  have d1 := digitChar_facts (m / 1000 % 10) (Nat.mod_lt _ (by omega))
  have d2 := digitChar_facts (m / 100 % 10) (Nat.mod_lt _ (by omega))
  have d3 := digitChar_facts (m / 10 % 10) (Nat.mod_lt _ (by omega))
  have d4 := digitChar_facts (m % 10) (Nat.mod_lt _ (by omega))
  rw [pad4, if_pos hlt]
  refine ⟨rfl, ?_, ?_⟩
  · simp [List.all_cons, d1.1, d2.1, d3.1, d4.1]
  · show digitsVal [Nat.digitChar (m / 1000 % 10), Nat.digitChar (m / 100 % 10),
      Nat.digitChar (m / 10 % 10), Nat.digitChar (m % 10)] = m
    unfold digitsVal
    simp only [List.foldl_cons, List.foldl_nil, d1.2, d2.2, d3.2, d4.2]
    omega

theorem strsC_getD (l : List String) (i : Nat) (h : i < l.length) :
    (strsC l).getD i none = some (Val.str (l.getD i "")) := by
  unfold strsC
  rw [getD_map_of_lt _ _ _ _ "" h]

theorem datesC_getD (l : List Int) (i : Nat) (h : i < l.length) :
    (datesC l).getD i none = some (Val.date (l.getD i 0)) := by
  unfold datesC
  rw [getD_map_of_lt _ _ _ _ 0 h]

theorem mkIds_getD (pfx : String) (n i : Nat) (h : i < n) :
    (mkIds pfx n).getD i "" = pfx ++ "-" ++ pad4 (i + 1) := by
  unfold mkIds
  rw [getD_map_range _ _ _ _ h]

theorem mkIds_length (pfx : String) (n : Nat) : (mkIds pfx n).length = n := by
  simp [mkIds]

theorem mkDates_length (g : Rng) (n : Nat) : (mkDates g n).1.length = n := by
  simp [mkDates, drawNats]

theorem mkDates_getD (g : Rng) (n i : Nat) (hi : i < n) :
    ∃ o : Nat, o ≤ 364 ∧ (mkDates g n).1.getD i 0 = (i : Int) + (o : Int) := by
  refine ⟨prng g.seed (g.ctr + i) % 365, ?_, ?_⟩
  · have := Nat.mod_lt (prng g.seed (g.ctr + i)) (y := 365) (by omega)
    omega
  · unfold mkDates drawNats
    simp only []
    have hl : i < (((List.range n).map (fun k => prng g.seed (g.ctr + k))).enum.map
        (fun q => (q.1 : Int) + (nrandint 0 365 q.2 : Int))).length := by
      simpa using hi
    rw [List.getD_eq_getElem _ _ hl, List.getElem_map, List.getElem_enum, List.getElem_map,
        List.getElem_range]
    simp [nrandint]

/-- The cell in column 0 of a generated table is the formatted identifier. -/
theorem ids_cell (cols : List (String × DType)) (data : List (List Cell)) (pfx : String)
    (n i : Nat) (hd : data.getD 0 [] = strsC (mkIds pfx n)) (hi : i < n) :
    cellAt (mkTable cols data n) i 0 = some (Val.str (pfx ++ "-" ++ pad4 (i + 1))) := by
  rw [mkTable_cellAt _ _ _ _ _ hi, hd,
      strsC_getD _ _ (by rw [mkIds_length]; exact hi), mkIds_getD _ _ _ hi]

/-- The cell in column 2 of a generated table is day `i` of the date range
plus a random offset of at most 364 days. -/
theorem dates_cell (cols : List (String × DType)) (data : List (List Cell)) (g : Rng)
    (n i : Nat) (hd : data.getD 2 [] = datesC (mkDates g n).1) (hi : i < n) :
    ∃ o : Nat, o ≤ 364 ∧
      cellAt (mkTable cols data n) i 2 = some (Val.date ((i : Int) + (o : Int))) := by
  obtain ⟨o, ho, he⟩ := mkDates_getD g n i hi
  refine ⟨o, ho, ?_⟩
  rw [mkTable_cellAt _ _ _ _ _ hi, hd,
      datesC_getD _ _ (by rw [mkDates_length]; exact hi), he]

/- ───────────────────────── the claims ───────────────────────── -/

/-- Claim C1: the generator is deterministic.  `generate_sample_data` re-seeds
the global stream at entry (line 30), so for each of the five scenarios the
result is independent of the incoming stream state: two calls with the same
scenario (row count and seed are the constants 1000 and 42) give identical
tables and leave identical stream states. -/
theorem claimC1 (g1 g2 : Rng) (topic : String) (h : topic ∈ scenarioIds) :
    generate_sample_data g1 topic = generate_sample_data g2 topic := rfl

theorem claimC1_witness :
    scn1 ∈ scenarioIds ∧
      generate_sample_data ⟨7, 3⟩ scn1 = generate_sample_data ⟨99, 5⟩ scn1 :=
  ⟨by decide, claimC1 ⟨7, 3⟩ ⟨99, 5⟩ scn1 (by decide)⟩

/-- Claim C5, counterexample: the claim says an unknown scenario fails with
the named `InvalidScenario` error value; on the code a concrete unknown
scenario instead falls through every branch of the `if`/`elif` chain and the
trailing `return df` raises `UnboundLocalError` (`nameError` in this
embedding) - an unrelated failure, not a returned error value. -/
theorem claimC5_counterexample :
    (generate_sample_data (seedRng 0) "6. Unknown Topic").1 = Except.error GenError.nameError ∧
      (generate_sample_data (seedRng 0) "6. Unknown Topic").1 ≠
        Except.error GenError.invalidScenario := by
  have h1 : (generate_sample_data (seedRng 0) "6. Unknown Topic").1 =
      Except.error GenError.nameError := rfl
  refine ⟨h1, ?_⟩
  rw [h1]
  simp

/-- Claim C5, amended: for every scenario identifier that is not one of the 5
known scenarios, `generate_sample_data` fails - but with an unbound-local
crash (`UnboundLocalError`, modelled `GenError.nameError`), not with a named
`InvalidScenario` error value returned to the caller. -/
theorem claimC5_amended (g : Rng) (topic : String) (h : topic ∉ scenarioIds) :
    (generate_sample_data g topic).1 = Except.error GenError.nameError := by
  simp only [scenarioIds, List.mem_cons, List.not_mem_nil, or_false, not_or] at h
  obtain ⟨h1, h2, h3, h4, h5⟩ := h
  simp [generate_sample_data, h1, h2, h3, h4, h5]

theorem claimC5_amended_witness :
    "6. Unknown Topic" ∉ scenarioIds ∧
      (generate_sample_data (seedRng 3) "6. Unknown Topic").1 =
        Except.error GenError.nameError :=
  ⟨by decide, claimC5_amended (seedRng 3) "6. Unknown Topic" (by decide)⟩

set_option maxRecDepth 40000 in
/-- Claim C2, counterexample: the claim says every date cell is one fixed
base date plus an offset of 0..364 days.  In the generated Instagram table
row 0 carries day 157 and row 999 carries day 1191 (days past 2024-01-01):
no single base date covers both within a 364-day window, because the code
adds `pd.date_range('2024-01-01', periods=n)` - which already grows by one
day per row - before the random offset. -/
theorem claimC2_counterexample :
    ¬ ∃ base : Int, ∀ i : Nat, i < 1000 →
        ∃ k : Nat, k ≤ 364 ∧ cellAt T1gen i 2 = some (Val.date (base + (k : Int))) := by
  rintro ⟨base, hb⟩
  obtain ⟨k0, hk0, hc0⟩ := hb 0 (by omega)
  obtain ⟨k9, hk9, hc9⟩ := hb 999 (by omega)
  have e0 : cellAt T1gen 0 2 = some (Val.date 157) := by decide
  have e9 : cellAt T1gen 999 2 = some (Val.date 1191) := by decide
  rw [e0] at hc0
  rw [e9] at hc9
  simp only [Option.some.injEq, Val.date.injEq] at hc0 hc9
  omega

set_option maxRecDepth 40000 in
/-- Claim C2, amended: for every scenario and every row index `i`, the date
cell equals the base date 2024-01-01 plus `i` days (the `date_range` term)
plus an independently sampled offset of 0 to 364 days - so the distribution
does depend on the row's position. -/
theorem claimC2_amended (g : Rng) (topic : String) (h : topic ∈ scenarioIds) :
    ∀ i : Nat, i < 1000 → ∃ o : Nat, o ≤ 364 ∧
      cellAt (getTable (generate_sample_data g topic)) i 2 =
        some (Val.date ((i : Int) + (o : Int))) := by
  intro i hi
  simp only [scenarioIds, List.mem_cons, List.not_mem_nil, or_false] at h
  rcases h with h | h | h | h | h <;> subst h
  · exact dates_cell _ _ _ _ _ rfl hi
  · exact dates_cell _ _ _ _ _ rfl hi
  · exact dates_cell _ _ _ _ _ rfl hi
  · exact dates_cell _ _ _ _ _ rfl hi
  · exact dates_cell _ _ _ _ _ rfl hi

theorem claimC2_amended_witness :
    scn2 ∈ scenarioIds ∧
      ∃ o : Nat, o ≤ 364 ∧
        cellAt (getTable (generate_sample_data (seedRng 1) scn2)) 5 2 =
          some (Val.date ((5 : Int) + (o : Int))) :=
  ⟨by decide, claimC2_amended (seedRng 1) scn2 (by decide) 5 (by omega)⟩

set_option maxRecDepth 40000 in
/-- Claim C6: for every scenario, the generated table has exactly the declared
column set, and every identifier cell (column 0) is the scenario prefix, a
hyphen, and the 4-digit zero-padded index `i+1` - four decimal digits whose
value reads back as `i+1`, so each identifier matches `^PFX-\d{4}$`. -/
theorem claimC6 (g : Rng) (topic : String) (h : topic ∈ scenarioIds) :
    (getTable (generate_sample_data g topic)).names = scenarioColumns topic ∧
    ∀ i : Nat, i < 1000 →
      ∃ ds : List Char, ds.length = 4 ∧ ds.all Char.isDigit = true ∧ digitsVal ds = i + 1 ∧
        cellAt (getTable (generate_sample_data g topic)) i 0 =
          some (Val.str (scenarioPfx topic ++ "-" ++ String.mk ds)) := by
  simp only [scenarioIds, List.mem_cons, List.not_mem_nil, or_false] at h
  rcases h with h | h | h | h | h <;> subst h
  · refine ⟨rfl, fun i hi => ?_⟩
    obtain ⟨hl, hd, hv⟩ := pad4_spec (i + 1) (by omega) (by omega)
    exact ⟨(pad4 (i + 1)).data, hl, hd, hv, ids_cell _ _ "POST" _ _ rfl hi⟩
  · refine ⟨rfl, fun i hi => ?_⟩
    obtain ⟨hl, hd, hv⟩ := pad4_spec (i + 1) (by omega) (by omega)
    exact ⟨(pad4 (i + 1)).data, hl, hd, hv, ids_cell _ _ "ORDER" _ _ rfl hi⟩
  · refine ⟨rfl, fun i hi => ?_⟩
    obtain ⟨hl, hd, hv⟩ := pad4_spec (i + 1) (by omega) (by omega)
    exact ⟨(pad4 (i + 1)).data, hl, hd, hv, ids_cell _ _ "CONTENT" _ _ rfl hi⟩
  · refine ⟨rfl, fun i hi => ?_⟩
    obtain ⟨hl, hd, hv⟩ := pad4_spec (i + 1) (by omega) (by omega)
    exact ⟨(pad4 (i + 1)).data, hl, hd, hv, ids_cell _ _ "AMZ-ORDER" _ _ rfl hi⟩
  · refine ⟨rfl, fun i hi => ?_⟩
    obtain ⟨hl, hd, hv⟩ := pad4_spec (i + 1) (by omega) (by omega)
    exact ⟨(pad4 (i + 1)).data, hl, hd, hv, ids_cell _ _ "USER" _ _ rfl hi⟩

theorem claimC6_witness :
    scn5 ∈ scenarioIds ∧
      ((getTable (generate_sample_data (seedRng 9) scn5)).names = scenarioColumns scn5 ∧
      ∀ i : Nat, i < 1000 →
        ∃ ds : List Char, ds.length = 4 ∧ ds.all Char.isDigit = true ∧ digitsVal ds = i + 1 ∧
          cellAt (getTable (generate_sample_data (seedRng 9) scn5)) i 0 =
            some (Val.str (scenarioPfx scn5 ++ "-" ++ String.mk ds))) :=
  ⟨by decide, claimC6 (seedRng 9) scn5 (by decide)⟩

theorem findIdxP_some_facts (p : α → Bool) (d : α) :
    ∀ (l : List α) (j : Nat), findIdxP p l = some j →
      j < l.length ∧ p (l.getD j d) = true ∧ ∀ k, k < j → p (l.getD k d) = false := by
  intro l
  induction l with
  | nil => intro j h; simp [findIdxP] at h
  | cons a as ih =>
      intro j h
      by_cases ha : p a = true
      · simp [findIdxP, ha] at h
        subst h
        exact ⟨by simp, ha, fun k hk => by omega⟩
      · simp [findIdxP, ha] at h
        obtain ⟨j0, hj0, hj⟩ := h
        obtain ⟨h1, h2, h3⟩ := ih j0 hj0
        subst hj
        refine ⟨by simpa using h1, by simpa using h2, ?_⟩
        intro k hk
        match k with
        | 0 => simpa using ha
        | k + 1 => simpa using h3 k (by omega)

theorem findIdxP_none_iff (p : α → Bool) (l : List α) :
    findIdxP p l = none ↔ ∀ a ∈ l, p a = false := by
  induction l with
  | nil => simp [findIdxP]
  | cons a as ih =>
      by_cases ha : p a = true
      · simp [findIdxP, ha]
      · have ha' : p a = false := by simpa using ha
        rw [findIdxP, if_neg ha, Option.map_eq_none', ih]
        constructor
        · intro h x hx
          rcases List.mem_cons.mp hx with hx | hx
          · subst hx; exact ha'
          · exact h x hx
        · intro h x hx
          exact h x (List.mem_cons.mpr (Or.inr hx))

theorem findIdxP_eq_some_of (p : α → Bool) (d : α) :
    ∀ (l : List α) (j : Nat), j < l.length → p (l.getD j d) = true →
      (∀ k, k < j → p (l.getD k d) = false) → findIdxP p l = some j := by
  intro l
  induction l with
  | nil => intro j h; simp at h
  | cons a as ih =>
      intro j hj hp hk
      match j with
      | 0 => simp [findIdxP, show p a = true from by simpa using hp]
      | j + 1 =>
          have ha : p a = false := by simpa using hk 0 (by omega)
          have := ih j (by simpa using hj) (by simpa using hp)
            (fun k hww => by simpa using hk (k + 1) (by omega))
          simp [findIdxP, ha, this]

theorem findIdxP_append_all_false (p : α → Bool) (l : List α) (a : α)
    (hl : ∀ x ∈ l, p x = false) (ha : p a = true) :
    findIdxP p (l ++ [a]) = some l.length := by
  induction l with
  | nil => simp [findIdxP, ha]
  | cons b bs ih =>
      have hb : p b = false := hl b (by simp)
      have := ih (fun x hx => hl x (by simp [hx]))
      simp [findIdxP, hb, this]

theorem getD_set_self (l : List α) (j : Nat) (a : α) (d : α) (h : j < l.length) :
    (l.set j a).getD j d = a := by
  rw [List.getD_eq_getElem _ _ (by simpa using h)]
  exact List.getElem_set_self _

theorem getD_set_ne (l : List α) (j k : Nat) (a : α) (d : α) (h : k ≠ j) :
    (l.set j a).getD k d = l.getD k d := by
  by_cases hk : k < l.length
  · rw [List.getD_eq_getElem _ _ (by simpa using hk), List.getD_eq_getElem _ _ hk]
    exact List.getElem_set_ne (fun hh => h hh.symm) _
  · rw [List.getD_eq_default _ _ (by simpa using Nat.le_of_not_lt hk),
        List.getD_eq_default _ _ (by simpa using Nat.le_of_not_lt hk)]

theorem getD_append_left (l m : List α) (k : Nat) (d : α) (h : k < l.length) :
    (l ++ m).getD k d = l.getD k d := by
  rw [List.getD_eq_getElem _ _ (by simp; omega), List.getD_eq_getElem _ _ h]
  exact List.getElem_append_left _

theorem getD_concat_length (l : List α) (a : α) (d : α) : (l ++ [a]).getD l.length d = a := by
  rw [List.getD_eq_getElem _ _ (by simp)]
  simp

theorem set_getD_eq_self : ∀ (l : List α) (j : Nat) (a d : α),
    j < l.length → l.getD j d = a → l.set j a = l := by
  intro l
  induction l with
  | nil => intro j a d h; simp at h
  | cons b bs ih =>
      intro j a d h he
      match j with
      | 0 => simp at he; simp [he]
      | j + 1 =>
          simp only [List.set_cons_succ, List.cons.injEq, true_and]
          exact ih j a d (by simpa using h) (by simpa using he)

theorem zipSet_col_self : ∀ (rows : List (List Cell)) (cs : List Cell) (j : Nat),
    rows.length = cs.length → (∀ r ∈ rows, j < r.length) →
    ((rows.zip cs).map (fun p => p.1.set j p.2)).map (fun r => r.getD j none) = cs := by
  intro rows
  induction rows with
  | nil =>
      intro cs j hl _
      match cs with
      | [] => simp
      | c :: cs' => simp at hl
  | cons r rs ih =>
      intro cs j hl hr
      match cs with
      | [] => simp at hl
      | c :: cs' =>
          simp only [List.zip_cons_cons, List.map_cons, List.cons.injEq]
          refine ⟨getD_set_self _ _ _ _ (hr r (by simp)), ?_⟩
          exact ih cs' j (by simpa using hl) (fun x hx => hr x (by simp [hx]))

theorem zipSet_col_ne : ∀ (rows : List (List Cell)) (cs : List Cell) (j k : Nat),
    rows.length = cs.length → k ≠ j →
    ((rows.zip cs).map (fun p => p.1.set j p.2)).map (fun r => r.getD k none) =
      rows.map (fun r => r.getD k none) := by
  intro rows
  induction rows with
  | nil => intro cs j k hl _; simp
  | cons r rs ih =>
      intro cs j k hl hk
      match cs with
      | [] => simp at hl
      | c :: cs' =>
          simp only [List.zip_cons_cons, List.map_cons, List.cons.injEq]
          exact ⟨getD_set_ne _ _ _ _ _ hk, ih cs' j k (by simpa using hl) hk⟩

theorem zipApp_col_new : ∀ (rows : List (List Cell)) (cs : List Cell) (w : Nat),
    rows.length = cs.length → (∀ r ∈ rows, r.length = w) →
    ((rows.zip cs).map (fun p => p.1 ++ [p.2])).map (fun r => r.getD w none) = cs := by
  intro rows
  induction rows with
  | nil =>
      intro cs w hl _
      match cs with
      | [] => simp
      | c :: cs' => simp at hl
  | cons r rs ih =>
      intro cs w hl hr
      match cs with
      | [] => simp at hl
      | c :: cs' =>
          simp only [List.zip_cons_cons, List.map_cons, List.cons.injEq]
          refine ⟨?_, ih cs' w (by simpa using hl) (fun x hx => hr x (by simp [hx]))⟩
          rw [← hr r (by simp)]
          exact getD_concat_length _ _ _

theorem zipApp_col_old : ∀ (rows : List (List Cell)) (cs : List Cell) (k : Nat),
    rows.length = cs.length → (∀ r ∈ rows, k < r.length) →
    ((rows.zip cs).map (fun p => p.1 ++ [p.2])).map (fun r => r.getD k none) =
      rows.map (fun r => r.getD k none) := by
  intro rows
  induction rows with
  | nil => intro cs k hl _; simp
  | cons r rs ih =>
      intro cs k hl hr
      match cs with
      | [] => simp at hl
      | c :: cs' =>
          simp only [List.zip_cons_cons, List.map_cons, List.cons.injEq]
          refine ⟨getD_append_left _ _ _ _ (hr r (by simp)), ?_⟩
          exact ih cs' k (by simpa using hl) (fun x hx => hr x (by simp [hx]))

theorem colIdx_facts (t : Table) (m : String) (j : Nat) (h : colIdx t m = some j) :
    j < t.cols.length ∧ (t.cols.getD j ("", DType.object)).1 = m ∧
      ∀ k, k < j → (t.cols.getD k ("", DType.object)).1 ≠ m := by
  obtain ⟨h1, h2, h3⟩ := findIdxP_some_facts _ ("", DType.object) _ _ h
  refine ⟨h1, by simpa using h2, ?_⟩
  intro k hk
  have := h3 k hk
  simpa using this

theorem colIdx_none_iff (t : Table) (m : String) :
    colIdx t m = none ↔ m ∉ t.names := by
  unfold colIdx
  rw [findIdxP_none_iff]
  unfold Table.names
  simp only [List.mem_map, beq_eq_false_iff_ne, ne_eq]
  constructor
  · rintro h ⟨c, hc, he⟩
    exact h c hc he
  · intro h c hc he
    exact h ⟨c, hc, he⟩

theorem colCells_length (t : Table) (j : Nat) : (colCells t j).length = t.rows.length := by
  simp [colCells]

/-- After `df[name] = cells`, label `name` resolves to a column holding
exactly `cells` (overwrite or append alike). -/
theorem setCol_self_col (t : Table) (hw : t.Wf) (n : String) (dt : DType) (cs : List Cell)
    (hcs : cs.length = t.rows.length) :
    ∃ j, colIdx (setCol t n dt cs) n = some j ∧ colCells (setCol t n dt cs) j = cs := by
  cases hcase : colIdx t n with
  | some j =>
      obtain ⟨h1, h2, h3⟩ := colIdx_facts t n j hcase
      refine ⟨j, ?_, ?_⟩
      · unfold setCol
        rw [hcase]
        apply findIdxP_eq_some_of _ ("", DType.object)
        · simpa using h1
        · rw [getD_set_self _ _ _ _ h1]
          simp
        · intro k hk
          rw [getD_set_ne _ _ _ _ _ (by omega)]
          simpa using h3 k hk
      · unfold setCol colCells
        rw [hcase]
        exact zipSet_col_self t.rows cs j hcs.symm
          (fun r hr => by rw [hw r hr]; exact h1)
  | none =>
      refine ⟨t.cols.length, ?_, ?_⟩
      · unfold setCol
        rw [hcase]
        show findIdxP (fun c => c.1 == n) (t.cols ++ [(n, dt)]) = some t.cols.length
        apply findIdxP_append_all_false
        · exact (findIdxP_none_iff _ _).mp hcase
        · simp
      · unfold setCol colCells
        rw [hcase]
        exact zipApp_col_new t.rows cs t.cols.length hcs.symm hw

/-- After `df[name] = cells`, every other label resolves to the same index
and the same cells as before. -/
theorem setCol_other_col (t : Table) (hw : t.Wf) (n : String) (dt : DType) (cs : List Cell)
    (hcs : cs.length = t.rows.length) (m : String) (hm : m ≠ n) (j : Nat)
    (hj : colIdx t m = some j) :
    colIdx (setCol t n dt cs) m = some j ∧ colCells (setCol t n dt cs) j = colCells t j := by
  obtain ⟨h1, h2, h3⟩ := colIdx_facts t m j hj
  cases hcase : colIdx t n with
  | some j0 =>
      obtain ⟨g1, g2, g3⟩ := colIdx_facts t n j0 hcase
      have hne : j ≠ j0 := by
        intro hh
        subst hh
        exact hm (h2.symm.trans g2)
      constructor
      · unfold setCol
        rw [hcase]
        apply findIdxP_eq_some_of _ ("", DType.object)
        · simpa using h1
        · rw [getD_set_ne _ _ _ _ _ hne]
          simpa using h2
        · intro k hk
          by_cases hkj : k = j0
          · subst hkj
            rw [getD_set_self _ _ _ _ g1]
            simpa using fun hh => hm hh.symm
          · rw [getD_set_ne _ _ _ _ _ hkj]
            simpa using h3 k hk
      · unfold setCol colCells
        rw [hcase]
        exact zipSet_col_ne t.rows cs j0 j hcs.symm hne
  | none =>
      constructor
      · unfold setCol
        rw [hcase]
        show findIdxP (fun c => c.1 == m) (t.cols ++ [(n, dt)]) = some j
        apply findIdxP_eq_some_of _ ("", DType.object)
        · simp only [List.length_append, List.length_cons, List.length_nil]
          omega
        · rw [getD_append_left _ _ _ _ h1]
          simpa using h2
        · intro k hk
          rw [getD_append_left _ _ _ _ (by omega)]
          simpa using h3 k hk
      · unfold setCol colCells
        rw [hcase]
        exact zipApp_col_old t.rows cs j hcs.symm
          (fun r hr => by rw [hw r hr]; exact h1)

/-- Column assignment never removes a label: the new label list is the old
one, possibly with the new name appended. -/
theorem setCol_names_append (t : Table) (n : String) (dt : DType) (cs : List Cell) :
    ∃ e, (setCol t n dt cs).names = t.names ++ e := by
  cases hcase : colIdx t n with
  | some j =>
      obtain ⟨h1, h2, h3⟩ := colIdx_facts t n j hcase
      refine ⟨[], ?_⟩
      unfold setCol Table.names
      rw [hcase]
      simp only [List.map_set, List.append_nil]
      apply set_getD_eq_self _ _ _ ""
      · simpa using h1
      · rw [getD_map_of_lt _ _ _ _ ("", DType.object) h1]
        exact h2
  | none =>
      refine ⟨[n], ?_⟩
      unfold setCol Table.names
      rw [hcase]
      simp

/-- Column assignment preserves well-formedness and the row count. -/
theorem setCol_wf (t : Table) (hw : t.Wf) (n : String) (dt : DType) (cs : List Cell)
    (hcs : cs.length = t.rows.length) :
    (setCol t n dt cs).Wf ∧ (setCol t n dt cs).rows.length = t.rows.length := by
  cases hcase : colIdx t n with
  | some j =>
      constructor
      · intro r hr
        unfold setCol at hr
        rw [hcase] at hr
        simp only [List.mem_map] at hr
        obtain ⟨p, hp, he⟩ := hr
        have hmem := List.of_mem_zip hp
        subst he
        unfold setCol
        rw [hcase]
        simp only [List.length_set, List.length_set]
        exact hw p.1 hmem.1
      · unfold setCol
        rw [hcase]
        simp only [List.length_map, List.length_zip]
        omega
  | none =>
      constructor
      · intro r hr
        unfold setCol at hr
        rw [hcase] at hr
        simp only [List.mem_map] at hr
        obtain ⟨p, hp, he⟩ := hr
        have hmem := List.of_mem_zip hp
        subst he
        unfold setCol
        rw [hcase]
        simp only [List.length_append, List.length_cons, List.length_nil]
        rw [hw p.1 hmem.1]
      · unfold setCol
        rw [hcase]
        simp only [List.length_map, List.length_zip]
        omega

theorem dropWhile_head_not (p : α → Bool) :
    ∀ (l : List α) (c : α), (l.dropWhile p).head? = some c → p c = false := by
  intro l
  induction l with
  | nil => intro c h; simp at h
  | cons a as ih =>
      intro c h
      by_cases ha : p a = true
      · rw [List.dropWhile_cons_of_pos ha] at h
        exact ih c h
      · rw [List.dropWhile_cons_of_neg ha] at h
        simp only [List.head?_cons, Option.some.injEq] at h
        subst h
        simpa using ha

theorem firstDigitRun_some_spec :
    ∀ (l r : List Char), firstDigitRun l = some r →
      ∃ pre post, l = pre ++ r ++ post ∧ (∀ c ∈ pre, c.isDigit = false) ∧ r ≠ [] ∧
        (∀ c ∈ r, c.isDigit = true) ∧ ∀ c, post.head? = some c → c.isDigit = false := by
  intro l
  induction l with
  | nil => intro r h; simp [firstDigitRun] at h
  | cons c rest ih =>
      intro r h
      by_cases hc : c.isDigit = true
      · rw [firstDigitRun, if_pos hc] at h
        simp only [Option.some.injEq] at h
        refine ⟨[], rest.dropWhile Char.isDigit, ?_, by simp, by simp [← h], ?_, ?_⟩
        · rw [← h]
          simp only [List.nil_append, List.cons_append, List.cons.injEq, true_and]
          exact (List.takeWhile_append_dropWhile Char.isDigit rest).symm
        · intro x hx
          rw [← h] at hx
          rcases List.mem_cons.mp hx with hx | hx
          · subst hx; exact hc
          · exact List.mem_takeWhile_imp hx
        · exact fun x => dropWhile_head_not _ _ x
      · rw [firstDigitRun, if_neg hc] at h
        obtain ⟨pre, post, he, hpre, hne, hdig, hpost⟩ := ih r h
        refine ⟨c :: pre, post, by simp [he], ?_, hne, hdig, hpost⟩
        intro x hx
        rcases List.mem_cons.mp hx with hx | hx
        · subst hx; simpa using hc
        · exact hpre x hx

theorem firstDigitRun_none_iff :
    ∀ l : List Char, firstDigitRun l = none ↔ ∀ c ∈ l, c.isDigit = false := by
  intro l
  induction l with
  | nil => simp [firstDigitRun]
  | cons c rest ih =>
      by_cases hc : c.isDigit = true
      · simp [firstDigitRun, hc]
      · rw [firstDigitRun, if_neg hc, ih]
        constructor
        · intro h x hx
          rcases List.mem_cons.mp hx with hx | hx
          · subst hx; simpa using hc
          · exact h x hx
        · intro h x hx
          exact h x (List.mem_cons.mpr (Or.inr hx))

/-- Claim C9: the identifier-extraction stage takes the first column whose
lowercased name contains `"id"`; when none exists it changes nothing, and
when one exists it assigns `extracted_number` with, per row, the first
maximal run of decimal digits of that column's string value (missing when no
digit occurs); the spec's own examples `"ORDER-0427"` and `"NOID"` behave as
stated. -/
theorem claimC9 (t : Table) (hw : t.Wf) :
    (findIdIdx t = none → extractIds t = t) ∧
    (findIdIdx t = none ↔ ∀ c ∈ t.cols, strContains (lowerStr c.1) "id" = false) ∧
    (∀ j, findIdIdx t = some j →
      strContains (lowerStr ((t.cols.getD j ("", DType.object)).1)) "id" = true ∧
      (∀ k, k < j → strContains (lowerStr ((t.cols.getD k ("", DType.object)).1)) "id" = false) ∧
      ∃ je, colIdx (extractIds t) "extracted_number" = some je ∧
        colCells (extractIds t) je = (colCells t j).map extractCell) ∧
    (∀ s r, extractNum s = some r →
      ∃ pre post, s.data = pre ++ r.data ++ post ∧ (∀ c ∈ pre, c.isDigit = false) ∧
        r.data ≠ [] ∧ (∀ c ∈ r.data, c.isDigit = true) ∧
        ∀ c, post.head? = some c → c.isDigit = false) ∧
    (∀ s, extractNum s = none ↔ ∀ c ∈ s.data, c.isDigit = false) ∧
    extractNum "ORDER-0427" = some "0427" ∧ extractNum "NOID" = none := by
  refine ⟨?_, ?_, ?_, ?_, ?_, by decide, by decide⟩
  · intro h
    unfold extractIds
    rw [h]
  · exact findIdxP_none_iff _ _
  · intro j hj
    obtain ⟨h1, h2, h3⟩ := findIdxP_some_facts _ ("", DType.object) _ _ hj
    refine ⟨h2, fun k hk => by simpa using h3 k hk, ?_⟩
    have he : extractIds t = setCol t "extracted_number" DType.object
        ((colCells t j).map extractCell) := by
      unfold extractIds
      rw [hj]
    rw [he]
    exact setCol_self_col t hw _ _ _ (by rw [List.length_map, colCells_length])
  · intro s r h
    unfold extractNum at h
    cases hrun : firstDigitRun s.data with
    | none => rw [hrun] at h; simp [Option.map_none'] at h
    | some r0 =>
        rw [hrun] at h
        simp only [Option.map_some', Option.some.injEq] at h
        subst h
        exact firstDigitRun_some_spec s.data r0 hrun
  · intro s
    unfold extractNum
    rw [Option.map_eq_none', firstDigitRun_none_iff]

theorem claimC9_witness :
    tIds.Wf ∧
      ((findIdIdx tIds = none → extractIds tIds = tIds) ∧
      (findIdIdx tIds = none ↔ ∀ c ∈ tIds.cols, strContains (lowerStr c.1) "id" = false) ∧
      (∀ j, findIdIdx tIds = some j →
        strContains (lowerStr ((tIds.cols.getD j ("", DType.object)).1)) "id" = true ∧
        (∀ k, k < j →
          strContains (lowerStr ((tIds.cols.getD k ("", DType.object)).1)) "id" = false) ∧
        ∃ je, colIdx (extractIds tIds) "extracted_number" = some je ∧
          colCells (extractIds tIds) je = (colCells tIds j).map extractCell) ∧
      (∀ s r, extractNum s = some r →
        ∃ pre post, s.data = pre ++ r.data ++ post ∧ (∀ c ∈ pre, c.isDigit = false) ∧
          r.data ≠ [] ∧ (∀ c ∈ r.data, c.isDigit = true) ∧
          ∀ c, post.head? = some c → c.isDigit = false) ∧
      (∀ s, extractNum s = none ↔ ∀ c ∈ s.data, c.isDigit = false) ∧
      extractNum "ORDER-0427" = some "0427" ∧ extractNum "NOID" = none) :=
  ⟨(wfB_iff tIds).mpr (by decide), claimC9 tIds ((wfB_iff tIds).mpr (by decide))⟩

theorem findIdxP_isSome (p : α → Bool) (l : List α) (h : ∃ a ∈ l, p a = true) :
    ∃ j, findIdxP p l = some j := by
  cases hc : findIdxP p l with
  | some j => exact ⟨j, rfl⟩
  | none =>
      obtain ⟨a, ha, hp⟩ := h
      rw [(findIdxP_none_iff p l).mp hc a ha] at hp
      exact absurd hp (by simp)

theorem hasExact_gives_sub (t : Table) (h : hasExactDateName t = true) :
    ∃ c ∈ t.cols, strContains (lowerStr c.1) "date" = true := by
  unfold hasExactDateName at h
  rw [List.any_eq_true] at h
  obtain ⟨nm0, hnm0, hmem⟩ := h
  have hm : nm0 ∈ t.names := by simpa using hmem
  unfold Table.names at hm
  obtain ⟨c, hc, he⟩ := List.mem_map.mp hm
  refine ⟨c, hc, ?_⟩
  rw [he]
  fin_cases hnm0 <;> decide

/-- Claim C3, counterexample: a table whose only column is named `Date`
(capital D) has a column whose name contains `"date"` case-insensitively -
line 127's scan would find it - yet the stage skips it entirely, because the
guard on line 126 tests exact membership of five lowercase names: no
`day_of_week` or `is_weekend` column is derived. -/
theorem claimC3_counterexample :
    strContains (lowerStr "Date") "date" = true ∧ findDateIdx tCap = some 0 ∧
      hasExactDateName tCap = false ∧ normalizeDates tCap = tCap ∧
      "day_of_week" ∉ (normalizeDates tCap).names ∧
      "is_weekend" ∉ (normalizeDates tCap).names := by
  decide

/-- Claim C3, amended: the date block runs only when one of the five exact
names `date`, `post_date`, `order_date`, `view_date`, `listen_date` is a
column label; tables whose date-like columns carry any other name (`Date`,
`ship_date`, ...) are skipped silently.  When the guard fires, the stage
takes the first column whose lowercased name contains `"date"`, re-writes it
through `pd.to_datetime(errors='coerce')` (unparseable cells become missing)
and assigns the derived `day_of_week` and `is_weekend` columns from the
parsed dates. -/
theorem claimC3_amended (t : Table) (hw : t.Wf) :
    (hasExactDateName t = false → normalizeDates t = t) ∧
    (hasExactDateName t = true → ∃ j, findDateIdx t = some j ∧
      strContains (lowerStr ((t.cols.getD j ("", DType.object)).1)) "date" = true ∧
      (∀ k, k < j →
        strContains (lowerStr ((t.cols.getD k ("", DType.object)).1)) "date" = false) ∧
      (∃ jc, colIdx (normalizeDates t) ((t.cols.getD j ("", DType.object)).1) = some jc ∧
        colCells (normalizeDates t) jc = (colCells t j).map parseCell) ∧
      (∃ jd, colIdx (normalizeDates t) "day_of_week" = some jd ∧
        colCells (normalizeDates t) jd = ((colCells t j).map parseCell).map dowCell) ∧
      (∃ jw, colIdx (normalizeDates t) "is_weekend" = some jw ∧
        colCells (normalizeDates t) jw = ((colCells t j).map parseCell).map weekendCell)) := by
  constructor
  · intro h
    simp [normalizeDates, h]
  · intro h
    obtain ⟨j, hfind⟩ := findIdxP_isSome _ _ (by
      obtain ⟨c, hc, hsub⟩ := hasExact_gives_sub t h
      exact ⟨c, hc, hsub⟩)
    obtain ⟨h1, h2, h3⟩ := findIdxP_some_facts _ ("", DType.object) _ _ hfind
    refine ⟨j, hfind, h2, fun k hk => by simpa using h3 k hk, ?_⟩
    set nm := (t.cols.getD j ("", DType.object)).1 with hnm
    set parsed := (colCells t j).map parseCell with hparsed
    have hplen : parsed.length = t.rows.length := by
      rw [hparsed, List.length_map, colCells_length]
    -- nm is distinct from the two derived labels
    have hnmd : nm ≠ "day_of_week" := by
      intro he
      rw [he] at h2
      exact absurd h2 (by decide)
    have hnmw : nm ≠ "is_weekend" := by
      intro he
      rw [he] at h2
      exact absurd h2 (by decide)
    -- the label nm resolves to column j of t
    have hcol_nm : colIdx t nm = some j := by
      apply findIdxP_eq_some_of _ ("", DType.object) _ _ h1 (by rw [beq_iff_eq, hnm])
      intro k hk
      have hks := h3 k hk
      rw [beq_eq_false_iff_ne]
      intro he
      rw [he] at hks
      rw [hks] at h2
      simp at h2
    -- stage 1: overwrite the date column with its parsed values
    obtain ⟨hwf2, hlen2⟩ := setCol_wf t hw nm DType.datetime parsed hplen
    obtain ⟨j2, hcol2, hcells2⟩ := setCol_self_col t hw nm DType.datetime parsed hplen
    set t2 := setCol t nm DType.datetime parsed with ht2
    -- stage 2: day_of_week
    have hplen3 : (parsed.map dowCell).length = t2.rows.length := by
      rw [List.length_map, hlen2]
      exact hplen
    obtain ⟨hwf3, hlen3⟩ := setCol_wf t2 hwf2 "day_of_week" DType.object
      (parsed.map dowCell) hplen3
    obtain ⟨jd, hcold, hcellsd⟩ := setCol_self_col t2 hwf2 "day_of_week" DType.object
      (parsed.map dowCell) hplen3
    obtain ⟨hcol2b, hcells2b⟩ := setCol_other_col t2 hwf2 "day_of_week" DType.object
      (parsed.map dowCell) hplen3 nm hnmd j2 hcol2
    set t3 := setCol t2 "day_of_week" DType.object (parsed.map dowCell) with ht3
    -- stage 3: is_weekend
    have hplenw : (parsed.map weekendCell).length = t3.rows.length := by
      rw [List.length_map, hlen3, hlen2]
      exact hplen
    obtain ⟨jw, hcolw, hcellsw⟩ := setCol_self_col t3 hwf3 "is_weekend" DType.boolean
      (parsed.map weekendCell) hplenw
    obtain ⟨hcoldb, hcellsdb⟩ := setCol_other_col t3 hwf3 "is_weekend" DType.boolean
      (parsed.map weekendCell) hplenw "day_of_week" (by decide) jd hcold
    obtain ⟨hcol2c, hcells2c⟩ := setCol_other_col t3 hwf3 "is_weekend" DType.boolean
      (parsed.map weekendCell) hplenw nm hnmw j2 hcol2b
    have hfd : findDateIdx t = some j := hfind
    have hnd : normalizeDates t = setCol t3 "is_weekend" DType.boolean
        (parsed.map weekendCell) := by
      unfold normalizeDates
      simp only [h, if_true, hfd]
    refine ⟨⟨j2, ?_, ?_⟩, ⟨jd, ?_, ?_⟩, ⟨jw, ?_, ?_⟩⟩
    · rw [hnd]
      exact hcol2c
    · rw [hnd, hcells2c, hcells2b]
      exact hcells2
    · rw [hnd]
      exact hcoldb
    · rw [hnd, hcellsdb]
      exact hcellsd
    · rw [hnd]
      exact hcolw
    · rw [hnd]
      exact hcellsw

theorem claimC3_amended_witness :
    tOrder.Wf ∧
      ((hasExactDateName tOrder = false → normalizeDates tOrder = tOrder) ∧
      (hasExactDateName tOrder = true → ∃ j, findDateIdx tOrder = some j ∧
        strContains (lowerStr ((tOrder.cols.getD j ("", DType.object)).1)) "date" = true ∧
        (∀ k, k < j →
          strContains (lowerStr ((tOrder.cols.getD k ("", DType.object)).1)) "date" = false) ∧
        (∃ jc, colIdx (normalizeDates tOrder) ((tOrder.cols.getD j ("", DType.object)).1) =
            some jc ∧
          colCells (normalizeDates tOrder) jc = (colCells tOrder j).map parseCell) ∧
        (∃ jd, colIdx (normalizeDates tOrder) "day_of_week" = some jd ∧
          colCells (normalizeDates tOrder) jd =
            ((colCells tOrder j).map parseCell).map dowCell) ∧
        (∃ jw, colIdx (normalizeDates tOrder) "is_weekend" = some jw ∧
          colCells (normalizeDates tOrder) jw =
            ((colCells tOrder j).map parseCell).map weekendCell))) :=
  ⟨(wfB_iff tOrder).mpr (by decide), claimC3_amended tOrder ((wfB_iff tOrder).mpr (by decide))⟩

theorem qmax_none_iff (l : List ℚ) : qmax l = none ↔ l = [] := by
  cases l with
  | nil => simp [qmax]
  | cons a as =>
      simp only [qmax]
      cases qmax as <;> simp

theorem qmin_none_iff (l : List ℚ) : qmin l = none ↔ l = [] := by
  cases l with
  | nil => simp [qmin]
  | cons a as =>
      simp only [qmin]
      cases qmin as <;> simp

theorem qmax_le (l : List ℚ) : ∀ x ∈ l, ∀ M, qmax l = some M → x ≤ M := by
  induction l with
  | nil => intro x hx; simp at hx
  | cons a as ih =>
      intro x hx M hM
      cases has : qmax as with
      | none =>
          rw [qmax, has] at hM
          simp only [Option.some.injEq] at hM
          have : as = [] := (qmax_none_iff as).mp has
          subst this
          simp at hx
          subst hx
          exact le_of_eq hM
      | some y =>
          rw [qmax, has] at hM
          simp only [Option.some.injEq] at hM
          subst hM
          rcases List.mem_cons.mp hx with hx | hx
          · subst hx; exact le_max_left _ _
          · exact le_trans (ih x hx y has) (le_max_right _ _)

theorem qmin_le (l : List ℚ) : ∀ x ∈ l, ∀ m, qmin l = some m → m ≤ x := by
  induction l with
  | nil => intro x hx; simp at hx
  | cons a as ih =>
      intro x hx m hm
      cases has : qmin as with
      | none =>
          rw [qmin, has] at hm
          simp only [Option.some.injEq] at hm
          have : as = [] := (qmin_none_iff as).mp has
          subst this
          simp at hx
          subst hx
          exact le_of_eq hm.symm
      | some y =>
          rw [qmin, has] at hm
          simp only [Option.some.injEq] at hm
          subst hm
          rcases List.mem_cons.mp hx with hx | hx
          · subst hx; exact min_le_left _ _
          · exact le_trans (min_le_right _ _) (ih x hx y has)

theorem qmax_mem (l : List ℚ) : ∀ M, qmax l = some M → M ∈ l := by
  induction l with
  | nil => intro M hM; simp [qmax] at hM
  | cons a as ih =>
      intro M hM
      cases has : qmax as with
      | none =>
          rw [qmax, has] at hM
          simp only [Option.some.injEq] at hM
          simp [hM]
      | some y =>
          rw [qmax, has] at hM
          simp only [Option.some.injEq] at hM
          subst hM
          rcases max_choice a y with hc | hc
          · simp [hc]
          · rw [hc]
            exact List.mem_cons.mpr (Or.inr (ih y has))

theorem qmin_mem (l : List ℚ) : ∀ m, qmin l = some m → m ∈ l := by
  induction l with
  | nil => intro m hm; simp [qmin] at hm
  | cons a as ih =>
      intro m hm
      cases has : qmin as with
      | none =>
          rw [qmin, has] at hm
          simp only [Option.some.injEq] at hm
          simp [hm]
      | some y =>
          rw [qmin, has] at hm
          simp only [Option.some.injEq] at hm
          subst hm
          rcases min_choice a y with hc | hc
          · simp [hc]
          · rw [hc]
            exact List.mem_cons.mpr (Or.inr (ih y has))

/-- Claim C8: for a numeric column of the table entering the min-max loop:
if its maximum equals its minimum the iteration is the identity (nothing
added, no division performed); otherwise `<name>_normalized` holds
`(v - min) / (max - min)` per present value, every such value lies in
`[0, 1]`, some row attains the minimum and maps to 0, and some row attains
the maximum and maps to 1. -/
theorem claimC8 (t : Table) (hw : t.Wf) (name : String) (j : Nat)
    (hmem : name ∈ numericNames t) (hj : colIdx t name = some j) :
    (∀ M m, qmax (numsOf (colCells t j)) = some M → qmin (numsOf (colCells t j)) = some m →
      M = m → normOne t name = t) ∧
    (∀ M m, qmax (numsOf (colCells t j)) = some M → qmin (numsOf (colCells t j)) = some m →
      M ≠ m →
      (0 < M - m) ∧
      (∃ jn, colIdx (normOne t name) (name ++ "_normalized") = some jn ∧
        colCells (normOne t name) jn = (colCells t j).map (fun c => match cellNum c with
          | some v => some (Val.num ((v - m) / (M - m)))
          | none => none)) ∧
      (∀ v ∈ numsOf (colCells t j), 0 ≤ (v - m) / (M - m) ∧ (v - m) / (M - m) ≤ 1) ∧
      (m ∈ numsOf (colCells t j) ∧ (m - m) / (M - m) = 0) ∧
      (M ∈ numsOf (colCells t j) ∧ (M - m) / (M - m) = 1)) := by
  constructor
  · intro M m hM hm he
    subst he
    unfold normOne
    rw [hj]
    simp only [hM, hm]
    simp
  · intro M m hM hm hne
    have hmm : m ∈ numsOf (colCells t j) := qmin_mem _ m hm
    have hMm : M ∈ numsOf (colCells t j) := qmax_mem _ M hM
    have hle : m ≤ M := qmax_le _ m hmm M hM
    have hpos : 0 < M - m := by
      rcases lt_or_eq_of_le hle with hlt | heq
      · linarith
      · exact absurd heq.symm hne
    refine ⟨hpos, ?_, ?_, ⟨hmm, by simp⟩, ⟨hMm, div_self (ne_of_gt hpos)⟩⟩
    · have hno : normOne t name = setCol t (name ++ "_normalized") DType.numeric
          ((colCells t j).map (fun c => match cellNum c with
            | some v => some (Val.num ((v - m) / (M - m)))
            | none => none)) := by
        unfold normOne
        rw [hj]
        simp only [hM, hm]
        rw [if_pos hpos]
      rw [hno]
      exact setCol_self_col t hw _ _ _ (by rw [List.length_map, colCells_length])
    · intro v hv
      have h1 : m ≤ v := qmin_le _ v hv m hm
      have h2 : v ≤ M := qmax_le _ v hv M hM
      constructor
      · apply div_nonneg <;> linarith
      · rw [div_le_one hpos]
        linarith

theorem claimC8_witness :
    tNorm.Wf ∧ "x" ∈ numericNames tNorm ∧ colIdx tNorm "x" = some 0 ∧
      ((∀ M m, qmax (numsOf (colCells tNorm 0)) = some M →
        qmin (numsOf (colCells tNorm 0)) = some m → M = m → normOne tNorm "x" = tNorm) ∧
      (∀ M m, qmax (numsOf (colCells tNorm 0)) = some M →
        qmin (numsOf (colCells tNorm 0)) = some m → M ≠ m →
        (0 < M - m) ∧
        (∃ jn, colIdx (normOne tNorm "x") ("x" ++ "_normalized") = some jn ∧
          colCells (normOne tNorm "x") jn = (colCells tNorm 0).map (fun c => match cellNum c with
            | some v => some (Val.num ((v - m) / (M - m)))
            | none => none)) ∧
        (∀ v ∈ numsOf (colCells tNorm 0), 0 ≤ (v - m) / (M - m) ∧ (v - m) / (M - m) ≤ 1) ∧
        (m ∈ numsOf (colCells tNorm 0) ∧ (m - m) / (M - m) = 0) ∧
        (M ∈ numsOf (colCells tNorm 0) ∧ (M - m) / (M - m) = 1))) :=
  ⟨(wfB_iff tNorm).mpr (by decide), by decide, by decide,
    claimC8 tNorm ((wfB_iff tNorm).mpr (by decide)) "x" 0 (by decide) (by decide)⟩

theorem length_filter_not (p : α → Bool) (l : List α) :
    (l.filter p).length + (l.filter (fun a => !p a)).length = l.length := by
  induction l with
  | nil => simp
  | cons a as ih =>
      by_cases ha : p a = true
      · rw [List.filter_cons_of_pos ha, List.filter_cons_of_neg (by simp [ha])]
        simp only [List.length_cons]
        omega
      · rw [List.filter_cons_of_neg ha, List.filter_cons_of_pos (by simp at ha; simp [ha])]
        simp only [List.length_cons]
        omega

theorem colIdx_isSome_iff (t : Table) (m : String) :
    (colIdx t m).isSome = true ↔ m ∈ t.names := by
  rw [Option.isSome_iff_ne_none, ne_eq, colIdx_none_iff, not_not]

/-- Claim C10: the hypothesis-test block runs exactly when both `is_weekend`
and `order_value` are column labels; when it runs it hands scipy the
`order_value` cells of the rows whose flag is True and of the remaining rows
(with `equal_var = False`, the Welch variant), the two samples partition the
rows, and the table itself passes through unmodified either way. -/
theorem claimC10 (t : Table) :
    ((hypothesisStage t).2 = t) ∧
    ((hypothesisStage t).1.isSome = true ↔
      ("is_weekend" ∈ t.names ∧ "order_value" ∈ t.names)) ∧
    (∀ w d ev, (hypothesisStage t).1 = some (w, d, ev) →
      ev = false ∧
      ∃ jw jv, colIdx t "is_weekend" = some jw ∧ colIdx t "order_value" = some jv ∧
        w = (t.rows.filter (fun r => r.getD jw none == some (Val.boolv true))).map
              (fun r => r.getD jv none) ∧
        d = (t.rows.filter (fun r => !(r.getD jw none == some (Val.boolv true)))).map
              (fun r => r.getD jv none) ∧
        w.length + d.length = t.rows.length) := by
  cases hwk : colIdx t "is_weekend" with
  | none =>
      cases hov : colIdx t "order_value" with
      | none =>
          have hstage : hypothesisStage t = (none, t) := by
            unfold hypothesisStage
            rw [hwk, hov]
          refine ⟨by rw [hstage], ?_, ?_⟩
          · rw [hstage]
            simp only [Option.isSome_none, Bool.false_eq_true, false_iff, not_and]
            intro hmem
            exact absurd hmem ((colIdx_none_iff t _).mp hwk)
          · intro w d ev heq
            rw [hstage] at heq
            simp at heq
      | some jv =>
          have hstage : hypothesisStage t = (none, t) := by
            unfold hypothesisStage
            rw [hwk, hov]
          refine ⟨by rw [hstage], ?_, ?_⟩
          · rw [hstage]
            simp only [Option.isSome_none, Bool.false_eq_true, false_iff, not_and]
            intro hmem
            exact absurd hmem ((colIdx_none_iff t _).mp hwk)
          · intro w d ev heq
            rw [hstage] at heq
            simp at heq
  | some jw =>
      cases hov : colIdx t "order_value" with
      | none =>
          have hstage : hypothesisStage t = (none, t) := by
            unfold hypothesisStage
            rw [hwk, hov]
          refine ⟨by rw [hstage], ?_, ?_⟩
          · rw [hstage]
            simp only [Option.isSome_none, Bool.false_eq_true, false_iff, not_and]
            intro _ hmem
            exact absurd hmem ((colIdx_none_iff t _).mp hov)
          · intro w d ev heq
            rw [hstage] at heq
            simp at heq
      | some jv =>
          have hstage : hypothesisStage t =
              (some ((t.rows.filter (fun r => r.getD jw none == some (Val.boolv true))).map
                       (fun r => r.getD jv none),
                     (t.rows.filter (fun r => !(r.getD jw none == some (Val.boolv true)))).map
                       (fun r => r.getD jv none),
                     false), t) := by
            unfold hypothesisStage
            rw [hwk, hov]
          refine ⟨by rw [hstage], ?_, ?_⟩
          · rw [hstage]
            simp only [Option.isSome_some, true_iff]
            constructor
            · rw [← colIdx_isSome_iff, hwk]
              rfl
            · rw [← colIdx_isSome_iff, hov]
              rfl
          · intro w d ev heq
            rw [hstage] at heq
            simp only [Option.some.injEq, Prod.mk.injEq] at heq
            obtain ⟨hww, hdd, hev⟩ := heq
            refine ⟨hev.symm, jw, jv, rfl, rfl, hww.symm, hdd.symm, ?_⟩
            rw [← hww, ← hdd]
            simp only [List.length_map]
            exact length_filter_not _ _

theorem clean_names (t : Table) : (clean t).names = t.names := rfl

theorem normalizeDates_names (t : Table) :
    ∃ e, (normalizeDates t).names = t.names ++ e := by
  unfold normalizeDates
  by_cases h : hasExactDateName t = true
  · rw [if_pos h]
    cases hfd : findDateIdx t with
    | none => exact ⟨[], by simp⟩
    | some j =>
        simp only []
        obtain ⟨e1, h1⟩ := setCol_names_append t ((t.cols.getD j ("", DType.object)).1)
          DType.datetime ((colCells t j).map parseCell)
        obtain ⟨e2, h2⟩ := setCol_names_append
          (setCol t ((t.cols.getD j ("", DType.object)).1) DType.datetime
            ((colCells t j).map parseCell))
          "day_of_week" DType.object (((colCells t j).map parseCell).map dowCell)
        obtain ⟨e3, h3⟩ := setCol_names_append
          (setCol (setCol t ((t.cols.getD j ("", DType.object)).1) DType.datetime
              ((colCells t j).map parseCell))
            "day_of_week" DType.object (((colCells t j).map parseCell).map dowCell))
          "is_weekend" DType.boolean (((colCells t j).map parseCell).map weekendCell)
        refine ⟨e1 ++ e2 ++ e3, ?_⟩
        rw [h3, h2, h1]
        simp [List.append_assoc]
  · rw [if_neg h]
    exact ⟨[], by simp⟩

theorem normOne_names (t : Table) (name : String) :
    ∃ e, (normOne t name).names = t.names ++ e := by
  unfold normOne
  cases hj : colIdx t name with
  | none => exact ⟨[], by simp⟩
  | some j =>
      simp only []
      cases hM : qmax (numsOf (colCells t j)) with
      | none => exact ⟨[], by simp [hM]⟩
      | some mx =>
          cases hm : qmin (numsOf (colCells t j)) with
          | none => exact ⟨[], by simp [hM, hm]⟩
          | some mn =>
              simp only [hM, hm]
              by_cases hlt : 0 < mx - mn
              · rw [if_pos hlt]
                exact setCol_names_append _ _ _ _
              · rw [if_neg hlt]
                exact ⟨[], by simp⟩

theorem normalizeNumeric_names (numCols : List String) :
    ∀ t : Table, ∃ e, (normalizeNumeric t numCols).names = t.names ++ e := by
  induction numCols with
  | nil => exact fun t => ⟨[], by simp [normalizeNumeric]⟩
  | cons x xs ih =>
      intro t
      obtain ⟨e1, h1⟩ := normOne_names t x
      obtain ⟨e2, h2⟩ := ih (normOne t x)
      refine ⟨e1 ++ e2, ?_⟩
      unfold normalizeNumeric at h2 ⊢
      rw [List.foldl_cons, h2, h1, List.append_assoc]

theorem extractIds_names (t : Table) : ∃ e, (extractIds t).names = t.names ++ e := by
  unfold extractIds
  cases hj : findIdIdx t with
  | none => exact ⟨[], by simp⟩
  | some j => exact setCol_names_append _ _ _ _

theorem addFeatures_names (topic : String) (t t2 : Table)
    (h : addFeatures topic t = Except.ok t2) : ∃ e, t2.names = t.names ++ e := by
  unfold addFeatures at h
  split_ifs at h
  · cases hL : getColByName t "likes" with
    | none => rw [hL] at h; simp at h
    | some L =>
      rw [hL] at h
      cases hC : getColByName t "comments" with
      | none => rw [hC] at h; simp at h
      | some C =>
        rw [hC] at h
        cases hS : getColByName t "shares" with
        | none => rw [hS] at h; simp at h
        | some S =>
          rw [hS] at h
          cases hR : getColByName t "reach" with
          | none => rw [hR] at h; simp at h
          | some R =>
              rw [hR] at h
              simp only [Except.ok.injEq] at h
              rw [← h]
              exact setCol_names_append _ _ _ _
  · cases hL : getColByName t "order_value" with
    | none => rw [hL] at h; simp at h
    | some L =>
      rw [hL] at h
      cases hC : getColByName t "items_per_order" with
      | none => rw [hC] at h; simp at h
      | some C =>
          rw [hC] at h
          simp only [Except.ok.injEq] at h
          rw [← h]
          exact setCol_names_append _ _ _ _
  · cases hL : getColByName t "completion_rate" with
    | none => rw [hL] at h; simp at h
    | some L =>
        rw [hL] at h
        simp only [Except.ok.injEq] at h
        rw [← h]
        exact setCol_names_append _ _ _ _
  · cases hL : getColByName t "on_time" with
    | none => rw [hL] at h; simp at h
    | some L =>
      rw [hL] at h
      cases hC : getColByName t "customer_rating" with
      | none => rw [hC] at h; simp at h
      | some C =>
        rw [hC] at h
        cases hS : getColByName t "returned" with
        | none => rw [hS] at h; simp at h
        | some S =>
            rw [hS] at h
            simp only [Except.ok.injEq] at h
            rw [← h]
            exact setCol_names_append _ _ _ _
  · cases hL : getColByName t "skips" with
    | none => rw [hL] at h; simp at h
    | some L =>
      rw [hL] at h
      cases hC : getColByName t "listen_time_min" with
      | none => rw [hC] at h; simp at h
      | some C =>
          rw [hC] at h
          simp only [Except.ok.injEq] at h
          rw [← h]
          exact setCol_names_append _ _ _ _
  · simp only [Except.ok.injEq] at h
    rw [← h]
    exact ⟨[], by simp⟩

theorem append_suffix_ne (s suf : String) (h : ¬ suf.data <:+ s.data) :
    ∀ name : String, name ++ suf ≠ s := by
  intro name he
  apply h
  rw [← he, String.data_append]
  exact ⟨name.data, rfl⟩

theorem no_normalized_in (l : List String)
    (hl : ∀ s ∈ l, ¬ ("_normalized".data <:+ s.data)) (name : String) :
    (name ++ "_normalized") ∉ l := by
  intro hin
  exact append_suffix_ne _ _ (hl _ hin) name rfl

set_option maxRecDepth 40000 in
/-- Claim C4, counterexample: the claim says every derived column goes to a
fresh name, never replacing a source column.  But the Instagram scenario's
generated schema already contains `engagement_rate`, and the feature branch
assigns exactly that name: on the generated table the column list is
unchanged (nothing appended) while the cell values change - a source column
is overwritten, not appended beside. -/
theorem claimC4_counterexample :
    featureTarget scn1 = "engagement_rate" ∧
      "engagement_rate" ∈ scenarioColumns scn1 ∧
      addFeatures scn1 T1gen = Except.ok T1feat ∧
      T1feat.names = T1gen.names ∧
      addFeatures scn1 tInsta = Except.ok tInstaFeat ∧
      tInstaFeat.names = tInsta.names ∧
      cellAt tInstaFeat 0 4 ≠ cellAt tInsta 0 4 := by
  refine ⟨by decide, by decide, rfl, by decide, rfl, by decide, by decide⟩

set_option maxRecDepth 40000 in
/-- Claim C4, amended: no pipeline stage ever removes a column - each stage's
output column list is the input list plus a (possibly empty) suffix of new
labels - and every derived label is fresh with respect to the generated
schemas: `day_of_week`, `extracted_number` and every `<name>_normalized`
label (no schema column ends in `_normalized`) occur in none of the five
schemas, and the feature target is fresh for every scenario except
Instagram, whose `engagement_rate` target already sits in the generated
schema (so there it overwrites); likewise the date block's `is_weekend`
label already sits in the McDonald's generated schema (so there the derived
flag overwrites the generated one). -/
theorem claimC4_amended :
    (∀ t, (clean t).names = t.names) ∧
    (∀ t, ∃ e, (normalizeDates t).names = t.names ++ e) ∧
    (∀ t numCols, ∃ e, (normalizeNumeric t numCols).names = t.names ++ e) ∧
    (∀ topic t t2, addFeatures topic t = Except.ok t2 → ∃ e, t2.names = t.names ++ e) ∧
    (∀ t, ∃ e, (extractIds t).names = t.names ++ e) ∧
    (∀ t, (hypothesisStage t).2.names = t.names) ∧
    (∀ topic, topic ∈ scenarioIds → topic ≠ scn1 →
      featureTarget topic ∉ scenarioColumns topic) ∧
    featureTarget scn1 ∈ scenarioColumns scn1 ∧
    (∀ topic, topic ∈ scenarioIds → "day_of_week" ∉ scenarioColumns topic) ∧
    (∀ topic, topic ∈ scenarioIds → topic ≠ scn2 → "is_weekend" ∉ scenarioColumns topic) ∧
    "is_weekend" ∈ scenarioColumns scn2 ∧
    (∀ topic, topic ∈ scenarioIds → "extracted_number" ∉ scenarioColumns topic) ∧
    (∀ topic, topic ∈ scenarioIds → ∀ name : String,
      (name ++ "_normalized") ∉ scenarioColumns topic) := by
  refine ⟨clean_names, normalizeDates_names, fun t numCols => normalizeNumeric_names numCols t,
    addFeatures_names, extractIds_names, ?_, ?_, by decide, ?_, ?_, by decide, ?_, ?_⟩
  · intro t
    exact congrArg Table.names (claimC10 t).1
  · intro topic hmem hne
    fin_cases hmem
    · exact absurd rfl hne
    · decide
    · decide
    · decide
    · decide
  · intro topic hmem
    fin_cases hmem <;> decide
  · intro topic hmem hne
    fin_cases hmem
    · decide
    · exact absurd rfl hne
    · decide
    · decide
    · decide
  · intro topic hmem
    fin_cases hmem <;> decide
  · intro topic hmem name
    fin_cases hmem
    · exact no_normalized_in _ (by decide) name
    · exact no_normalized_in _ (by decide) name
    · exact no_normalized_in _ (by decide) name
    · exact no_normalized_in _ (by decide) name
    · exact no_normalized_in _ (by decide) name

theorem zipWith_getD (f : α → β → γ) (da : α) (db : β) (dc : γ) :
    ∀ (as : List α) (bs : List β) (j : Nat), j < as.length → j < bs.length →
      (List.zipWith f as bs).getD j dc = f (as.getD j da) (bs.getD j db) := by
  intro as
  induction as with
  | nil => intro bs j h; simp at h
  | cons a as ih =>
      intro bs j ha hb
      match bs with
      | [] => simp at hb
      | b :: bs' =>
          match j with
          | 0 => rfl
          | j + 1 =>
              simp only [List.zipWith_cons_cons, List.getD_cons_succ]
              exact ih bs' j (by simpa using ha) (by simpa using hb)

theorem eq_of_getD (d : α) :
    ∀ (as bs : List α), as.length = bs.length →
      (∀ j, j < as.length → as.getD j d = bs.getD j d) → as = bs := by
  intro as
  induction as with
  | nil =>
      intro bs hl _
      match bs with
      | [] => rfl
      | b :: bs' => simp at hl
  | cons a as ih =>
      intro bs hl he
      match bs with
      | [] => simp at hl
      | b :: bs' =>
          have h0 : a = b := by simpa using he 0 (by simp)
          have hrest : as = bs' := by
            apply ih bs' (by simpa using hl)
            intro j hj
            simpa using he (j + 1) (by simpa using hj)
          rw [h0, hrest]

theorem fill_keeps_nonempty :
    ∀ (rs fs : List Cell), rs.length ≤ fs.length → rowEmpty rs = false →
      rowEmpty (List.zipWith fillCell fs rs) = false := by
  intro rs
  induction rs with
  | nil => intro fs _ h; simp [rowEmpty] at h
  | cons c cs ih =>
      intro fs hl h
      match fs with
      | [] => simp at hl
      | f :: fs' =>
          rw [List.zipWith_cons_cons]
          cases hc : c with
          | some v =>
              subst hc
              simp [rowEmpty, fillCell]
          | none =>
              subst hc
              have hcs : rowEmpty cs = false := by
                simpa [rowEmpty] using h
              have := ih fs' (by simpa using hl) hcs
              simp only [rowEmpty, List.all_cons] at this ⊢
              rw [this]
              simp

theorem insertQ_length (x : ℚ) : ∀ l : List ℚ, (insertQ x l).length = l.length + 1 := by
  intro l
  induction l with
  | nil => rfl
  | cons y ys ih =>
      unfold insertQ
      by_cases h : x ≤ y
      · rw [if_pos h]
        simp
      · rw [if_neg h]
        simp only [List.length_cons, ih]

theorem sortQ_length : ∀ l : List ℚ, (sortQ l).length = l.length := by
  intro l
  induction l with
  | nil => rfl
  | cons x xs ih =>
      unfold sortQ
      rw [insertQ_length, ih]
      rfl

theorem medianQ_none_iff (l : List ℚ) : medianQ l = none ↔ l = [] := by
  unfold medianQ
  simp only []
  by_cases h : (sortQ l).length = 0
  · rw [if_pos h]
    have : l = [] := List.length_eq_zero.mp (by rw [← sortQ_length l]; exact h)
    simp [this]
  · rw [if_neg h]
    have : l ≠ [] := by
      intro he
      subst he
      exact h rfl
    by_cases h2 : (sortQ l).length % 2 = 1
    · rw [if_pos h2]
      simp [this]
    · rw [if_neg h2]
      simp [this]

theorem colsFills_length (cols : List (String × DType)) (rows : List (List Cell)) :
    (colsFills cols rows).length = cols.length := by
  simp [colsFills]

theorem colsFills_getD (cols : List (String × DType)) (rows : List (List Cell)) (j : Nat)
    (h : j < cols.length) :
    (colsFills cols rows).getD j none =
      fillOf (cols.getD j ("", DType.object)).2 (rows.map (fun r => r.getD j none)) := by
  unfold colsFills
  rw [getD_map_range _ _ _ _ h]

theorem fillCell_none (c : Cell) : fillCell none c = c := by
  cases c <;> rfl

/-- Claim C7: the cleaning stage is idempotent.  After one pass every
surviving row keeps a present cell, so the second `dropna(how='all')` drops
nothing; a numeric column either got a real median (then it has no missing
cells left) or was all-missing (then it still is, and its median is still
missing); object columns are fully filled with `"Unknown"`; so the second
pass changes nothing: `clean (clean t) = clean t`. -/
theorem claimC7 (t : Table) (hw : t.Wf) : clean (clean t) = clean t := by
  have hWf1 : ∀ r ∈ dropEmptyRows t.rows, r.length = t.cols.length :=
    fun r hr => hw r (List.mem_of_mem_filter hr)
  have hne1 : ∀ r ∈ dropEmptyRows t.rows, rowEmpty r = false := by
    intro r hr
    have hf := (List.mem_filter.mp hr).2
    simpa using hf
  set rows1 := dropEmptyRows t.rows with hrows1
  set fills := colsFills t.cols rows1 with hfills
  have hfl : fills.length = t.cols.length := by
    rw [hfills]
    exact colsFills_length _ _
  set rows2 := rows1.map (fun r => List.zipWith fillCell fills r) with hrows2
  have hclean : clean t = ⟨t.cols, rows2⟩ := rfl
  have hWf2 : ∀ r2 ∈ rows2, r2.length = t.cols.length := by
    intro r2 hr2
    rw [hrows2] at hr2
    obtain ⟨r, hr, he⟩ := List.mem_map.mp hr2
    rw [← he, List.length_zipWith, hfl, hWf1 r hr]
    simp
  have hne2 : ∀ r2 ∈ rows2, rowEmpty r2 = false := by
    intro r2 hr2
    rw [hrows2] at hr2
    obtain ⟨r, hr, he⟩ := List.mem_map.mp hr2
    rw [← he]
    exact fill_keeps_nonempty r fills (by rw [hWf1 r hr, hfl]) (hne1 r hr)
  have hdrop2 : dropEmptyRows rows2 = rows2 := by
    apply List.filter_eq_self.mpr
    intro r2 hr2
    rw [hne2 r2 hr2]
    rfl
  have hcolpers : ∀ j, j < t.cols.length → fills.getD j none = none →
      rows2.map (fun r => r.getD j none) = rows1.map (fun r => r.getD j none) := by
    intro j hj hfn
    rw [hrows2, List.map_map]
    apply List.map_congr_left
    intro r hr
    show (List.zipWith fillCell fills r).getD j none = r.getD j none
    rw [zipWith_getD fillCell none none none fills r j (by rw [hfl]; exact hj)
        (by rw [hWf1 r hr]; exact hj), hfn, fillCell_none]
  set fills2 := colsFills t.cols rows2 with hfills2
  have hf2l : fills2.length = t.cols.length := by
    rw [hfills2]
    exact colsFills_length _ _
  have hpers : ∀ j, j < t.cols.length → fills.getD j none = none →
      fills2.getD j none = none := by
    intro j hj hfn
    have hcolj := hcolpers j hj hfn
    rw [hfills, colsFills_getD _ _ _ hj] at hfn
    rw [hfills2, colsFills_getD _ _ _ hj, hcolj]
    exact hfn
  have hclean2 : clean (clean t) =
      ⟨t.cols, rows2.map (fun r => List.zipWith fillCell fills2 r)⟩ := by
    rw [hclean]
    show (⟨t.cols, (dropEmptyRows rows2).map
        (fun r => List.zipWith fillCell (colsFills t.cols (dropEmptyRows rows2)) r)⟩ : Table) = _
    rw [hdrop2, ← hfills2]
  rw [hclean2, hclean]
  simp only [Table.mk.injEq, true_and]
  conv_rhs => rw [← List.map_id rows2]
  apply List.map_congr_left
  intro r2 hr2
  show List.zipWith fillCell fills2 r2 = r2
  have hl2 : r2.length = t.cols.length := hWf2 r2 hr2
  apply eq_of_getD none
  · rw [List.length_zipWith, hf2l, hl2]
    simp
  · intro j hj
    have hj' : j < t.cols.length := by
      rw [List.length_zipWith, hf2l, hl2] at hj
      simpa using hj
    rw [zipWith_getD fillCell none none none fills2 r2 j (by rw [hf2l]; exact hj')
        (by rw [hl2]; exact hj')]
    rw [hrows2] at hr2
    obtain ⟨r, hr, he⟩ := List.mem_map.mp hr2
    have hr2j : r2.getD j none = fillCell (fills.getD j none) (r.getD j none) := by
      rw [← he, zipWith_getD fillCell none none none fills r j (by rw [hfl]; exact hj')
          (by rw [hWf1 r hr]; exact hj')]
    rw [hr2j]
    cases hc : r.getD j none with
    | some v => rfl
    | none =>
        cases hf : fills.getD j none with
        | some m => rfl
        | none =>
            show fills2.getD j none = none
            exact hpers j hj' hf

theorem claimC7_witness : tMiss.Wf ∧ clean (clean tMiss) = clean tMiss :=
  ⟨(wfB_iff tMiss).mpr (by decide), claimC7 tMiss ((wfB_iff tMiss).mpr (by decide))⟩
